import Mathlib

/-!
Shallow embedding of namd_xtb.py, the NAMD-xtb QM/MM interface script.

Python floats are modelled as exact rationals (ℚ); Python exceptions are
modelled by Option (none = the function raised and no value was returned).
Files are lists of lines (readlines) or whole strings; the filesystem used by
the orchestrator run_qmmm is an association list from path to content.
-/

namespace NamdXtb

/-! Python string primitives, modelled character-listwise. -/

/-- Model of Python str.strip(): drop leading and trailing whitespace. -/
def pyStrip (s : String) : String :=
  String.mk (((s.data.dropWhile Char.isWhitespace).reverse.dropWhile Char.isWhitespace).reverse)

/-- Split a character list at a separator character, keeping empty pieces,
as Python str.split(sep) does. The second argument accumulates the current
piece in reverse. -/
def splitOnChar (sep : Char) : List Char → List Char → List String
  | [], acc => [String.mk acc.reverse]
  | c :: cs, acc =>
    if c = sep then String.mk acc.reverse :: splitOnChar sep cs []
    else splitOnChar sep cs (c :: acc)

/-- Model of Python str.split() with no argument: split on whitespace runs,
producing only nonempty tokens. -/
def splitWs : List Char → List Char → List String
  | [], acc => if acc = [] then [] else [String.mk acc.reverse]
  | c :: cs, acc =>
    if c.isWhitespace then
      if acc = [] then splitWs cs [] else String.mk acc.reverse :: splitWs cs []
    else splitWs cs (c :: acc)

/-- Python line.strip().split() applied to a line. -/
def pySplit (s : String) : List String := splitWs s.data []

/-- Model of Python file.readlines() followed by iterating over lines: the
trailing newline kept by Python on each line is immaterial here because every
consumer strips the line, so we split on newline and drop the empty final
piece produced by a trailing newline (Python produces no such extra line). -/
def pyReadlines (s : String) : List String :=
  let ls := splitOnChar '\n' s.data []
  if ls.getLast? = some "" then ls.dropLast else ls

/-- Model of Python str.replace with single-character arguments, as used in
line 150 of the source: data[i].replace('D','E'). -/
def pyReplaceDE (s : String) : String :=
  String.mk (s.data.map fun c => if c = 'D' then 'E' else c)

/-! Python numeric literal parsing (int() and float()). -/

/-- Numeric value of a decimal digit character. -/
def digitVal (c : Char) : Nat := c.toNat - 48

/-- Accumulate a digit list into a natural number. -/
def digitsToNat (cs : List Char) : Nat := cs.foldl (fun n c => n * 10 + digitVal c) 0

/-- Check a nonempty all-digit character list. -/
def isDigits (cs : List Char) : Bool := decide (cs ≠ []) && cs.all Char.isDigit

/-- Helper for pyIntDigits: walk the characters keeping the previous one;
an underscore must be directly preceded by a digit. -/
def pyIntDigitsGo : Char → List Char → Bool
  | _, [] => true
  | p, c :: cs => (if c = '_' then p.isDigit else c.isDigit) && pyIntDigitsGo c cs

/-- Digit-group check for Python int(): digits, with single underscores
allowed only between digits (the first character must be a digit and,
checked separately, so must the last). -/
def pyIntDigits : List Char → Bool
  | [] => false
  | c :: cs => c.isDigit && pyIntDigitsGo c cs

/-- Core of Python int() on a sign-stripped character list. -/
def pyIntCore (cs : List Char) : Option Nat :=
  if pyIntDigits cs ∧ (cs.getLastD '0').isDigit then
    some (digitsToNat (cs.filter fun c => ¬ (c = '_')))
  else none

/-- Model of Python int(str): strip whitespace, optional sign, decimal digits
with optional single underscores between digits. -/
def pyParseInt (s : String) : Option ℤ :=
  match (pyStrip s).data with
  | '-' :: rest => (pyIntCore rest).map fun n => -(n : ℤ)
  | '+' :: rest => (pyIntCore rest).map fun n => (n : ℤ)
  | cs => (pyIntCore cs).map fun n => (n : ℤ)

/-- Strip an optional leading sign; true means negative. -/
def splitSign : List Char → Bool × List Char
  | '-' :: rest => (true, rest)
  | '+' :: rest => (false, rest)
  | cs => (false, cs)

/-- Mantissa of a Python float literal: digits with an optional single decimal
point; at least one digit must be present. -/
def parseMantissa (cs : List Char) : Option ℚ :=
  let ip := cs.takeWhile fun c => ¬ (c = '.')
  match cs.dropWhile fun c => ¬ (c = '.') with
  | [] => if isDigits ip then some (digitsToNat ip : ℚ) else none
  | _ :: fp =>
    if fp.contains '.' then none
    else if ip = [] ∧ fp = [] then none
    else if ip.all Char.isDigit ∧ fp.all Char.isDigit then
      some ((digitsToNat ip : ℚ) + (digitsToNat fp : ℚ) / (10 : ℚ) ^ fp.length)
    else none

/-- Model of Python float(str) on plain decimal and scientific notation:
strip, optional sign, mantissa, optional e/E exponent with optional sign. -/
def parseFloat (s : String) : Option ℚ :=
  let cs := (pyStrip s).data
  let (neg, cs1) := splitSign cs
  let mant := cs1.takeWhile fun c => ¬ (c = 'e' ∨ c = 'E')
  let val? : Option ℚ :=
    match cs1.dropWhile fun c => ¬ (c = 'e' ∨ c = 'E') with
    | [] => parseMantissa mant
    | _ :: ex =>
      let (eneg, ed) := splitSign ex
      if isDigits ed then
        (parseMantissa mant).map fun m =>
          if eneg then m / (10 : ℚ) ^ digitsToNat ed else m * (10 : ℚ) ^ digitsToNat ed
      else none
  val?.map fun v => if neg then -v else v

/-! Python '{:.6f}' formatting, used by write_xtbinput and write_namdoutput. -/

/-- Pad a natural number's decimal representation to six digits with leading
zeros, for the fractional part of fixed-point formatting. -/
def pad6 (n : Nat) : String :=
  let s := toString n
  String.mk (List.replicate (6 - s.length) '0') ++ s

/-- Model of Python '{:.6f}'.format(q): round to six decimal places and render
with exactly six fractional digits. -/
def fmt6 (q : ℚ) : String :=
  let n : ℤ := Rat.floor (q * 1000000 + 1/2)
  let a := n.natAbs
  (if n < 0 then "-" else "") ++ toString (a / 1000000) ++ "." ++ pad6 (a % 1000000)

/-! Data model: the value structures of one QM/MM step (spec section 3). -/

/-- Result of read_namdinput (source lines 40-83): element list, coordinate
array and point-charge array. Elements start as Python None (here: none) and
are filled in; coordinates are rows of the n×3 array; pcharge rows are
(magnitude, x, y, z) as in the n×4 array of the source. -/
structure NamdInput where
  element : List (Option String)
  coor : List (ℚ × ℚ × ℚ)
  pcharge : List (ℚ × ℚ × ℚ × ℚ)
deriving DecidableEq

/-- Conversion factor to Bohr used at source lines 81 and 150. -/
def bohrPerUnit : ℚ := 1.88973

/-- Parse one atom line as the loop body at source lines 66-71 does: float
fields 0..2 are the coordinates, field 3 is the element symbol; a missing
field or an unparseable float raises (none). -/
def atomLineParse (line : String) : Option ((ℚ × ℚ × ℚ) × String) := do
  let d := pySplit (pyStrip line)
  let x ← (d.get? 0).bind parseFloat
  let y ← (d.get? 1).bind parseFloat
  let z ← (d.get? 2).bind parseFloat
  let e ← d.get? 3
  pure ((x, y, z), e)

/-- Parse one point-charge line as the loop body at source lines 75-81 does:
field 3 is the magnitude (assigned first, converted to float by the numpy
element assignment), fields 0..2 are the raw coordinates. -/
def pcLineParse (line : String) : Option (ℚ × (ℚ × ℚ × ℚ)) := do
  let d := pySplit (pyStrip line)
  let q ← (d.get? 3).bind parseFloat
  let x ← (d.get? 0).bind parseFloat
  let y ← (d.get? 1).bind parseFloat
  let z ← (d.get? 2).bind parseFloat
  pure (q, (x, y, z))

/-- Loop of read_namdinput over the lines after the first (source lines 49-81).
The counter lc is the 1-based line number of the current line. Lines with
1 < lc ≤ N+1 populate atom row lc-2; lines with 1+N < lc ≤ 1+N+M populate
point-charge row lc-2-N with coordinates scaled by 1.88973; other lines are
ignored. A parse failure raises (none). -/
def namdLoop (N M : Nat) : NamdInput → Nat → List String → Option NamdInput
  | st, _, [] => some st
  | st, lc, line :: rest =>
    if 1 < lc ∧ lc ≤ N + 1 then
      match atomLineParse line with
      | none => none
      | some (xyz, e) =>
        namdLoop N M { st with coor := st.coor.set (lc - 2) xyz,
                               element := st.element.set (lc - 2) (some e) } (lc + 1) rest
    else if 1 + N < lc ∧ lc ≤ 1 + N + M then
      match pcLineParse line with
      | none => none
      | some (q, (x, y, z)) =>
        namdLoop N M { st with pcharge := (st.pcharge.set (lc - 2 - N)
                         (q, x * bohrPerUnit, y * bohrPerUnit, z * bohrPerUnit)) } (lc + 1) rest
    else
      namdLoop N M st (lc + 1) rest

/-- Parse the first line of the NAMD input as source lines 54-62 do: two
whitespace fields, both Python ints; numpy rejects negative array dimensions,
so a negative count raises (none). -/
def headerParse (lines : List String) : Option (Nat × Nat) := do
  let l1 ← lines.head?
  let fs := pySplit (pyStrip l1)
  let f0 ← fs.get? 0
  let f1 ← fs.get? 1
  let nZ ← pyParseInt f0
  let mZ ← pyParseInt f1
  if nZ < 0 ∨ mZ < 0 then none
  else pure (nZ.toNat, mZ.toNat)

/-- Model of read_namdinput (source lines 40-83) on the list of lines of the
input file: parse the header, allocate element as N× None, coor as N×3 zeros
and pcharge as M×4 zeros, then run the line loop from line number 2. An empty
file leaves element unbound at the return statement and raises (none). -/
def read_namdinputLines (lines : List String) : Option NamdInput := do
  let (N, M) ← headerParse lines
  namdLoop N M ⟨List.replicate N none, List.replicate N (0, 0, 0),
                List.replicate M (0, 0, 0, 0)⟩ 2 lines.tail

/-- Model of read_namdinput on the whole file content. -/
def read_namdinput (file : String) : Option NamdInput :=
  read_namdinputLines (pyReadlines file)

/-- Render a Python value that is either a string or None, as str.format does
for the element column of write_xtbinput (source line 99). -/
def pyShowElem : Option String → String
  | some s => s
  | none => "None"

/-- Model of the xyz half of write_xtbinput (source lines 95-99): atom count,
a blank line, then one line per atom with the element and the coordinates to
six decimal places. Indexing coor by the element index raises (none) if coor
is shorter than element, exactly as coor[i] would. -/
def write_xtbinput_xyz (element : List (Option String)) (coor : List (ℚ × ℚ × ℚ)) :
    Option String := do
  let rows ← (List.range element.length).mapM fun i => do
    let e ← element.get? i
    let xyz ← coor.get? i
    pure (pyShowElem e ++ " " ++ fmt6 xyz.1 ++ " " ++ fmt6 xyz.2.1 ++ " " ++
          fmt6 xyz.2.2 ++ "\n")
  pure (toString element.length ++ "\n\n" ++ String.join rows)

/-- Model of the point-charge half of write_xtbinput (source lines 102-109):
charge count, then one line per charge with magnitude and the already
Bohr-scaled coordinates, all to six decimal places. -/
def write_xtbinput_pc (pcharge : List (ℚ × ℚ × ℚ × ℚ)) : String :=
  toString pcharge.length ++ "\n" ++
    String.join (pcharge.map fun p =>
      fmt6 p.1 ++ " " ++ fmt6 p.2.1 ++ " " ++ fmt6 p.2.2.1 ++ " " ++ fmt6 p.2.2.2 ++ "\n")

/-- Model of convert_input (source lines 111-114) at the level of file
contents: read the NAMD step file content, produce the xyz file content and
the point-charge file content. -/
def convert_input (namdinput : String) : Option (String × String) := do
  let st ← read_namdinput namdinput
  let xyz ← write_xtbinput_xyz st.element st.coor
  pure (xyz, write_xtbinput_pc st.pcharge)

/-! Engine-output reader read_xtboutput (source lines 116-152). -/

/-- Parse the energy from the second line of the gradient file as source
lines 142-144 do: whitespace fields, field index 6 as a float. -/
def energyLineParse (line : String) : Option ℚ :=
  ((pySplit (pyStrip line)).get? 6).bind parseFloat

/-- Parse one gradient line as source lines 146-150 do: three whitespace
fields, each a float after replacing the Fortran exponent marker D with E. -/
def gradLineParse (line : String) : Option (ℚ × ℚ × ℚ) := do
  let d := pySplit (pyStrip line)
  let a ← (d.get? 0).bind fun f => parseFloat (pyReplaceDE f)
  let b ← (d.get? 1).bind fun f => parseFloat (pyReplaceDE f)
  let c ← (d.get? 2).bind fun f => parseFloat (pyReplaceDE f)
  pure (a, b, c)

/-- Loop of read_xtboutput over the gradient-file lines (source lines 134-151).
The counter is the 1-based line number: line 1 is skipped, line 2 yields the
energy (×630), and lines with N+2 < count ≤ N+N+2 fill force row
count-N-2-1 (each gradient value ×(-630)×1.88973) together with that row's
charge taken from atom_charge. -/
def gradLoop (N : Nat) (atomCharge : List ℚ) :
    Option ℚ → List (ℚ × ℚ × ℚ × ℚ) → Nat → List String →
    Option (Option ℚ × List (ℚ × ℚ × ℚ × ℚ))
  | en, info, _, [] => some (en, info)
  | en, info, count, line :: rest =>
    if count = 1 then gradLoop N atomCharge en info (count + 1) rest
    else if count = 2 then
      match energyLineParse line with
      | none => none
      | some e => gradLoop N atomCharge (some (e * 630)) info (count + 1) rest
    else if N + 2 < count ∧ count ≤ N + N + 2 then
      match gradLineParse line with
      | none => none
      | some g =>
        match atomCharge.get? (count - N - 2 - 1) with
        | none => none
        | some q =>
          gradLoop N atomCharge en
            (info.set (count - N - 2 - 1)
              (g.1 * (-630) * 1.88973, g.2.1 * (-630) * 1.88973,
               g.2.2 * (-630) * 1.88973, q))
            (count + 1) rest
    else gradLoop N atomCharge en info (count + 1) rest

/-- Parsing of the charge file by source lines 122-127: each non-blank line,
stripped, is converted to a float. -/
def chargeParse (chargeLines : List String) : Option (List ℚ) :=
  (chargeLines.filter fun l => ¬ (pyStrip l = "")).mapM fun l => parseFloat (pyStrip l)

/-- Model of read_xtboutput (source lines 116-152) on the two files' lines:
the non-blank lines of the charge file give the per-atom charges and the
authoritative atom count N; the gradient file is scanned by gradLoop starting
from line number 1 over an N×4 zero array; returning an unbound energy (a
gradient file with fewer than two lines) raises (none). -/
def read_xtboutputLines (chargeLines gradLines : List String) :
    Option (ℚ × List (ℚ × ℚ × ℚ × ℚ)) := do
  let atomCharge ← chargeParse chargeLines
  let N := atomCharge.length
  let (en?, info) ← gradLoop N atomCharge none (List.replicate N (0, 0, 0, 0)) 1 gradLines
  let en ← en?
  pure (en, info)

/-- Model of read_xtboutput on whole file contents. -/
def read_xtboutput (chargeFile gradFile : String) : Option (ℚ × List (ℚ × ℚ × ℚ × ℚ)) :=
  read_xtboutputLines (pyReadlines chargeFile) (pyReadlines gradFile)

/-- Model of write_namdoutput (source lines 154-165): the energy to six
decimals, then one line per atom with the three force components and the
charge, each to six decimals. -/
def write_namdoutput (energy : ℚ) (info : List (ℚ × ℚ × ℚ × ℚ)) : String :=
  fmt6 energy ++ "\n" ++
    String.join (info.map fun r =>
      fmt6 r.1 ++ " " ++ fmt6 r.2.1 ++ " " ++ fmt6 r.2.2.1 ++ " " ++ fmt6 r.2.2.2 ++ "\n")

/-- Model of convert_output (source lines 167-170) at the level of file
contents. -/
def convert_output (chargeFile gradFile : String) : Option String := do
  let (en, info) ← read_xtboutput chargeFile gradFile
  pure (write_namdoutput en info)

/-! Filesystem model and the step orchestrator run_qmmm (source lines 172-197). -/

/-- A filesystem is an association list from path to file content; the first
binding for a path is its current content. -/
abbrev Fs := List (String × String)

/-- Read a file; none models FileNotFoundError. -/
def fsRead (fs : Fs) (p : String) : Option String :=
  (fs.find? fun kv => kv.1 == p).map fun kv => kv.2

/-- Write (create or overwrite) a file. -/
def fsWrite (fs : Fs) (p c : String) : Fs :=
  (p, c) :: fs.filter fun kv => ¬ (kv.1 == p)

/-- Model of os.remove: fails (none) if the file does not exist. -/
def fsRemove (fs : Fs) (p : String) : Option Fs :=
  if (fsRead fs p).isSome then some (fs.filter fun kv => ¬ (kv.1 == p)) else none

/-- Model of os.path.dirname for POSIX paths: the part before the last slash,
with trailing slashes stripped unless the head is all slashes. -/
def dirname (p : String) : String :=
  let cs := p.data
  let afterLast := (cs.reverse.takeWhile fun c => ¬ (c = '/')).length
  if afterLast = cs.length then ""
  else
    let head := cs.take (cs.length - afterLast)
    if head.all fun c => c = '/' then String.mk head
    else String.mk ((head.reverse.dropWhile fun c => c = '/').reverse)

/-- Model of os.path.basename for POSIX paths: the part after the last slash. -/
def basename (p : String) : String :=
  String.mk ((p.data.reverse.takeWhile fun c => ¬ (c = '/')).reverse)

/-- Model of Python list indexing QMCHARGE[i]: a negative index selects from
the end; an index out of that range raises IndexError (none). -/
def pyListGet (l : List ℤ) (i : ℤ) : Option ℤ :=
  if 0 ≤ i then l.get? i.toNat
  else if -i ≤ (l.length : ℤ) then l.get? (l.length - (-i).toNat)
  else none

/-- One invocation of the external xtb engine: the structure-file argument and
the value passed after the -charge flag. -/
structure EngineCall where
  xyzfile : String
  charge : ℤ
deriving DecidableEq

/-- Model of convert_input at the filesystem level (source lines 111-114,
188): read the step file, write the xyz file then the point-charge file. -/
def fs_convert_input (fs : Fs) (namdfile xyzfile pcfile : String) : Option Fs := do
  let content ← fsRead fs namdfile
  let (xyz, pc) ← convert_input content
  pure (fsWrite (fsWrite fs xyzfile xyz) pcfile pc)

/-- Model of convert_output at the filesystem level (source lines 167-170,
191): read the charges and gradient files, write the NAMD result file. -/
def fs_convert_output (fs : Fs) (chargeFile gradFile namdoutput : String) : Option Fs := do
  let cc ← fsRead fs chargeFile
  let gc ← fsRead fs gradFile
  let out ← convert_output cc gc
  pure (fsWrite fs namdoutput out)

/-- Model of run_qmmm (source lines 172-197). The external engine is an
oracle xtb transforming the filesystem given the invocation arguments; the
QMCHARGE table is the static configuration the user edits at source line 33.
The returned list records the engine invocations that actually happened, and
none models the step dying on an uncaught exception. Steps in source order:
derive path, base and the region id int(path.split('/')[-1]); compute the
five scratch paths and the result path; convert_input; evaluate
QMCHARGE[qmpart] while building the subprocess arguments; run the engine;
convert_output; os.remove the five scratch files. -/
def run_qmmm (xtb : EngineCall → Fs → Fs) (qmcharge : List ℤ) (fs : Fs)
    (directory : String) : Option Fs × List EngineCall :=
  let path := dirname directory
  let base := basename directory
  match pyParseInt ((splitOnChar '/' path.data []).getLastD "") with
  | none => (none, [])
  | some qmpart =>
    let xtbxyz := path ++ "/xtbxyz.xyz"
    let xtbpcfile := path ++ "/pcharge"
    let xtbcharges := path ++ "/charges"
    let xtbgrad := path ++ "/gradient"
    let xtbrestart := path ++ "/xtbrestart"
    let namdoutput := path ++ "/" ++ base ++ ".result"
    match fs_convert_input fs directory xtbxyz xtbpcfile with
    | none => (none, [])
    | some fs1 =>
      match pyListGet qmcharge qmpart with
      | none => (none, [])
      | some c =>
        let call : EngineCall := ⟨xtbxyz, c⟩
        let fs2 := xtb call fs1
        match fs_convert_output fs2 xtbcharges xtbgrad namdoutput with
        | none => (none, [call])
        | some fs3 =>
          match (((fsRemove fs3 xtbxyz).bind fun f => fsRemove f xtbpcfile).bind
                  fun f => (fsRemove f xtbcharges)).bind fun f =>
                  ((fsRemove f xtbgrad).bind fun f2 => fsRemove f2 xtbrestart) with
          | none => (none, [call])
          | some fs4 => (some fs4, [call])

/-! Characterization of the gradient-file loop. -/

/-- Conversion applied by the loop body at source lines 148-151 to the parsed
gradient triple of row j, with the charge taken from the charge file. -/
def rowConv (atomCharge : List ℚ) (j : Nat) (g : ℚ × ℚ × ℚ) : ℚ × ℚ × ℚ × ℚ :=
  (g.1 * (-630) * 1.88973, g.2.1 * (-630) * 1.88973, g.2.2 * (-630) * 1.88973,
   atomCharge.getD j 0)

/-- Characterization of a successful gradLoop run started at line number
count: row j of the final array comes from the line numbered N+3+j when that
line is among the processed ones, and is untouched otherwise; the energy
comes from the line numbered 2 under the same proviso. -/
theorem gradLoop_char (N : Nat) (ac : List ℚ)
    (ls : List String) :
    ∀ (count : Nat) (en en' : Option ℚ) (info info' : List (ℚ × ℚ × ℚ × ℚ)),
      gradLoop N ac en info count ls = some (en', info') →
      info.length = N → 1 ≤ count →
      info'.length = N ∧
      (∀ j, j < N → count ≤ N + 3 + j → N + 3 + j < count + ls.length →
        info'[j]? = (gradLineParse (ls.getD (N + 3 + j - count) "")).map (rowConv ac j)) ∧
      (∀ j, j < N → ¬(count ≤ N + 3 + j ∧ N + 3 + j < count + ls.length) →
        info'[j]? = info[j]?) ∧
      (count ≤ 2 → 2 < count + ls.length →
        en' = (energyLineParse (ls.getD (2 - count) "")).map fun e => e * 630) ∧
      (¬(count ≤ 2 ∧ 2 < count + ls.length) → en' = en) := by
  induction ls with
  | nil =>
    intro count en en' info info' h hlen hc
    simp only [gradLoop, Option.some.injEq, Prod.mk.injEq] at h
    obtain ⟨he, hi⟩ := h
    subst he hi
    refine ⟨hlen, ?_, ?_, ?_, ?_⟩
    · intro j _ _ hw; simp only [List.length_nil] at hw; omega
    · intro j _ _; rfl
    · intro _ hw; simp only [List.length_nil] at hw; omega
    · intro _; rfl
  | cons line rest ih =>
    intro count en en' info info' h hlen hc
    by_cases h1 : count = 1
    · simp only [gradLoop] at h
      rw [if_pos h1] at h
      subst h1
      obtain ⟨ihl, ihw, ihf, ihe, ihef⟩ := ih 2 en en' info info' h hlen (by omega)
      refine ⟨ihl, ?_, ?_, ?_, ?_⟩
      · intro j hj hw1 hw2
        simp only [List.length_cons] at hw2
        have hx : N + 3 + j - 1 = (N + 3 + j - 2) + 1 := by omega
        rw [hx, List.getD_cons_succ]
        exact ihw j hj (by omega) (by omega)
      · intro j hj hw
        simp only [List.length_cons] at hw
        exact ihf j hj (by omega)
      · intro _ h2
        simp only [List.length_cons] at h2
        exact ihe (by omega) (by omega)
      · intro hw
        simp only [List.length_cons] at hw
        exact ihef (by omega)
    · by_cases h2 : count = 2
      · simp only [gradLoop] at h
        rw [if_neg h1, if_pos h2] at h
        subst h2
        cases heq : energyLineParse line with
        | none => rw [heq] at h; simp at h
        | some e =>
          rw [heq] at h
          dsimp only at h
          obtain ⟨ihl, ihw, ihf, ihe, ihef⟩ :=
            ih 3 (some (e * 630)) en' info info' h hlen (by omega)
          refine ⟨ihl, ?_, ?_, ?_, ?_⟩
          · intro j hj hw1 hw2
            simp only [List.length_cons] at hw2
            have hx : N + 3 + j - 2 = (N + 3 + j - 3) + 1 := by omega
            rw [hx, List.getD_cons_succ]
            exact ihw j hj (by omega) (by omega)
          · intro j hj hw
            simp only [List.length_cons] at hw
            exact ihf j hj (by omega)
          · intro _ _
            rw [ihef (by omega)]
            have hz : (2 : Nat) - 2 = 0 := by omega
            rw [hz, List.getD_cons_zero, heq]
            rfl
          · intro hw
            simp only [List.length_cons] at hw
            exact absurd (by omega) hw
      · by_cases h3 : N + 2 < count ∧ count ≤ N + N + 2
        · simp only [gradLoop] at h
          rw [if_neg h1, if_neg h2, if_pos h3] at h
          cases heq : gradLineParse line with
          | none => rw [heq] at h; simp at h
          | some g =>
            rw [heq] at h
            dsimp only at h
            rw [List.get?_eq_getElem?] at h
            cases hq : ac[count - N - 2 - 1]? with
            | none => rw [hq] at h; simp at h
            | some q =>
              rw [hq] at h
              dsimp only at h
              obtain ⟨ihl, ihw, ihf, ihe, ihef⟩ :=
                ih (count + 1) en en'
                  (info.set (count - N - 2 - 1)
                    (g.1 * (-630) * 1.88973, g.2.1 * (-630) * 1.88973,
                     g.2.2 * (-630) * 1.88973, q))
                  info' h (by simpa using hlen) (by omega)
              refine ⟨ihl, ?_, ?_, ?_, ?_⟩
              · intro j hj hw1 hw2
                simp only [List.length_cons] at hw2
                by_cases hcur : N + 3 + j = count
                · have hidx : count - N - 2 - 1 = j := by omega
                  have hfr := ihf j hj (by omega)
                  rw [hfr, hidx, List.getElem?_set_self (by omega)]
                  have hz : N + 3 + j - count = 0 := by omega
                  rw [hz, List.getD_cons_zero, heq]
                  have hq2 : ac[j]? = some q := by rw [← hidx]; exact hq
                  simp [rowConv, List.getD_eq_getElem?_getD, hq2]
                · have hx : N + 3 + j - count = (N + 3 + j - (count + 1)) + 1 := by omega
                  rw [hx, List.getD_cons_succ]
                  exact ihw j hj (by omega) (by omega)
              · intro j hj hw
                simp only [List.length_cons] at hw
                have hne : count - N - 2 - 1 ≠ j := by omega
                rw [ihf j hj (by omega), List.getElem?_set_ne hne]
              · intro hw _
                exact absurd hw (by omega)
              · intro _
                exact ihef (by omega)
        · simp only [gradLoop] at h
          rw [if_neg h1, if_neg h2, if_neg h3] at h
          obtain ⟨ihl, ihw, ihf, ihe, ihef⟩ := ih (count + 1) en en' info info' h hlen (by omega)
          refine ⟨ihl, ?_, ?_, ?_, ?_⟩
          · intro j hj hw1 hw2
            simp only [List.length_cons] at hw2
            have hcur : N + 3 + j ≠ count := by omega
            have hx : N + 3 + j - count = (N + 3 + j - (count + 1)) + 1 := by omega
            rw [hx, List.getD_cons_succ]
            exact ihw j hj (by omega) (by omega)
          · intro j hj hw
            simp only [List.length_cons] at hw
            exact ihf j hj (by omega)
          · intro hle _
            exact absurd hle (by omega)
          · intro _
            exact ihef (by omega)

/-- Monadic map over Option preserves length. -/
theorem mapM_option_length {α β : Type} (f : α → Option β) :
    ∀ (l : List α) (l' : List β), l.mapM f = some l' → l'.length = l.length := by
  intro l
  induction l with
  | nil => intro l' h; simp only [List.mapM_nil, pure, Option.some.injEq] at h; simp [← h]
  | cons a as ih =>
    intro l' h
    rw [List.mapM_cons] at h
    cases hf : f a with
    | none => rw [hf] at h; simp at h
    | some b =>
      rw [hf] at h
      cases hm : as.mapM f with
      | none => rw [hm] at h; simp at h
      | some bs =>
        rw [hm] at h
        simp only [bind, Option.bind, pure, Option.some.injEq] at h
        subst h
        simp [ih bs hm]

/-- A gradLoop run succeeds whenever the lines it will actually parse (line 2
for the energy and lines N+3..2N+2 for the gradient rows) all parse. -/
theorem gradLoop_isSome (N : Nat) (ac : List ℚ) (hac : ac.length = N) (ls : List String) :
    ∀ (count : Nat) (en : Option ℚ) (info : List (ℚ × ℚ × ℚ × ℚ)),
      1 ≤ count →
      (∀ k, k < ls.length →
        (count + k = 2 → (energyLineParse (ls.getD k "")).isSome) ∧
        (N + 2 < count + k ∧ count + k ≤ N + N + 2 →
          (gradLineParse (ls.getD k "")).isSome)) →
      (gradLoop N ac en info count ls).isSome := by
  induction ls with
  | nil => intro count en info _ _; simp [gradLoop]
  | cons line rest ih =>
    intro count en info hc hok
    have hrest : ∀ k, k < rest.length →
        (count + 1 + k = 2 → (energyLineParse (rest.getD k "")).isSome) ∧
        (N + 2 < count + 1 + k ∧ count + 1 + k ≤ N + N + 2 →
          (gradLineParse (rest.getD k "")).isSome) := by
      intro k hk
      have hkk := hok (k + 1) (by simp only [List.length_cons]; omega)
      rw [List.getD_cons_succ] at hkk
      exact ⟨fun hh => hkk.1 (by omega), fun hh => hkk.2 ⟨by omega, by omega⟩⟩
    by_cases h1 : count = 1
    · simp only [gradLoop]; rw [if_pos h1]
      exact ih (count + 1) en info (by omega) hrest
    · by_cases h2 : count = 2
      · simp only [gradLoop]; rw [if_neg h1, if_pos h2]
        have he : (energyLineParse line).isSome := by
          have hee := (hok 0 (by simp only [List.length_cons]; omega)).1 (by omega)
          simpa using hee
        cases heq : energyLineParse line with
        | none => rw [heq] at he; simp at he
        | some e =>
          dsimp only
          exact ih (count + 1) (some (e * 630)) info (by omega) hrest
      · by_cases h3 : N + 2 < count ∧ count ≤ N + N + 2
        · simp only [gradLoop]; rw [if_neg h1, if_neg h2, if_pos h3]
          have hg : (gradLineParse line).isSome := by
            have hgg := (hok 0 (by simp only [List.length_cons]; omega)).2 (by omega)
            simpa using hgg
          cases heq : gradLineParse line with
          | none => rw [heq] at hg; simp at hg
          | some g =>
            dsimp only
            rw [List.get?_eq_getElem?]
            have hidx : count - N - 2 - 1 < ac.length := by omega
            rw [List.getElem?_eq_getElem hidx]
            dsimp only
            exact ih (count + 1) en _ (by omega) hrest
        · simp only [gradLoop]; rw [if_neg h1, if_neg h2, if_neg h3]
          exact ih (count + 1) en info (by omega) hrest

/-- Characterization of a successful read_xtboutputLines run: the per-atom
array has one row per parsed charge, row j mirrors the gradient-file line
with 0-based index N+2+j when that line was processed (and stays zero when
the file is too short), and the energy is 630 times field 6 of line 2. -/
theorem read_xtboutputLines_char (chargeLines gradLines : List String)
    (ac : List ℚ) (en : ℚ) (info : List (ℚ × ℚ × ℚ × ℚ))
    (hc : chargeParse chargeLines = some ac)
    (h : read_xtboutputLines chargeLines gradLines = some (en, info)) :
    info.length = ac.length ∧
    (∀ j, j < ac.length → ac.length + 3 + j ≤ gradLines.length →
      info[j]? = (gradLineParse (gradLines.getD (ac.length + 2 + j) "")).map
        (rowConv ac j)) ∧
    (∀ j, j < ac.length → gradLines.length < ac.length + 3 + j →
      info[j]? = some (0, 0, 0, 0)) ∧
    (some en = (energyLineParse (gradLines.getD 1 "")).map fun e => e * 630) := by
  rw [read_xtboutputLines, hc] at h
  simp only [Option.bind_eq_bind, Option.some_bind] at h
  cases hloop : gradLoop ac.length ac none
      (List.replicate ac.length (0, 0, 0, 0)) 1 gradLines with
  | none => rw [hloop] at h; simp at h
  | some p =>
    rw [hloop] at h
    obtain ⟨en?, info2⟩ := p
    simp only [Option.some_bind] at h
    cases hen : en? with
    | none => rw [hen] at h; simp at h
    | some e0 =>
      rw [hen] at h
      simp only [Option.some_bind, Option.pure_def, Option.some.injEq, Prod.mk.injEq] at h
      obtain ⟨hee, hii⟩ := h
      subst hee hii
      obtain ⟨hl, hw, hf, he, hef⟩ :=
        gradLoop_char ac.length ac gradLines 1 none (some e0)
          (List.replicate ac.length (0, 0, 0, 0)) info2 (hen ▸ hloop)
          (by simp) (by omega)
      refine ⟨by simpa using hl, ?_, ?_, ?_⟩
      · intro j hj hlen
        have := hw j hj (by omega) (by omega)
        have hx : ac.length + 3 + j - 1 = ac.length + 2 + j := by omega
        rwa [hx] at this
      · intro j hj hlen
        have := hf j hj (by omega)
        rwa [List.getElem?_replicate_of_lt hj] at this
      · by_cases hg2 : 2 ≤ gradLines.length
        · have := he (by omega) (by omega)
          rw [← this]
        · have := hef (by omega)
          simp at this

/-- Element access of a successful monadic map over Option. -/
theorem mapM_option_getElem {α β : Type} (f : α → Option β) :
    ∀ (l : List α) (l' : List β), l.mapM f = some l' →
      ∀ j, j < l.length → l'[j]? = (l[j]?).bind f := by
  intro l
  induction l with
  | nil => intro l' _ j hj; simp at hj
  | cons a as ih =>
    intro l' h j hj
    rw [List.mapM_cons] at h
    cases hf : f a with
    | none => rw [hf] at h; simp at h
    | some b =>
      rw [hf] at h
      cases hm : as.mapM f with
      | none => rw [hm] at h; simp at h
      | some bs =>
        rw [hm] at h
        simp only [bind, Option.bind, pure, Option.some.injEq] at h
        subst h
        cases j with
        | zero => simp [hf]
        | succ i =>
          simp only [List.getElem?_cons_succ]
          exact ih bs hm i (by simpa using hj)

/-- A read_xtboutputLines run succeeds whenever the charge file parses, the
gradient file has an energy line that parses, and the gradient lines the loop
will visit all parse. -/
theorem read_xtboutputLines_isSome (chargeLines gradLines : List String) (ac : List ℚ)
    (hc : chargeParse chargeLines = some ac)
    (hg2 : 2 ≤ gradLines.length)
    (he : (energyLineParse (gradLines.getD 1 "")).isSome)
    (hg : ∀ j, j < ac.length → ac.length + 3 + j ≤ gradLines.length →
      (gradLineParse (gradLines.getD (ac.length + 2 + j) "")).isSome) :
    (read_xtboutputLines chargeLines gradLines).isSome := by
  have hok : ∀ k, k < gradLines.length →
      (1 + k = 2 → (energyLineParse (gradLines.getD k "")).isSome) ∧
      (ac.length + 2 < 1 + k ∧ 1 + k ≤ ac.length + ac.length + 2 →
        (gradLineParse (gradLines.getD k "")).isSome) := by
    intro k hk
    constructor
    · intro h2
      have hk1 : k = 1 := by omega
      subst hk1; exact he
    · intro hcond
      have hj : k - (ac.length + 2) < ac.length := by omega
      have hk2 : ac.length + 2 + (k - (ac.length + 2)) = k := by omega
      have hgj := hg (k - (ac.length + 2)) hj (by omega)
      rwa [hk2] at hgj
  have hsome := gradLoop_isSome ac.length ac rfl gradLines 1 none
    (List.replicate ac.length (0, 0, 0, 0)) (by omega) hok
  cases hloop : gradLoop ac.length ac none
      (List.replicate ac.length (0, 0, 0, 0)) 1 gradLines with
  | none => rw [hloop] at hsome; simp at hsome
  | some p =>
    obtain ⟨en?, info⟩ := p
    obtain ⟨hl, hw, hf, heC, hef⟩ := gradLoop_char ac.length ac gradLines 1 none en?
      (List.replicate ac.length (0, 0, 0, 0)) info hloop (by simp) (by omega)
    rw [read_xtboutputLines, hc]
    simp only [Option.bind_eq_bind, Option.some_bind]
    rw [hloop]
    simp only [Option.some_bind]
    have hE := heC (by omega) (by omega)
    have h21 : (2 : Nat) - 1 = 1 := rfl
    rw [h21] at hE
    cases hev : energyLineParse (gradLines.getD 1 "") with
    | none => rw [hev] at he; simp at he
    | some e =>
      rw [hev] at hE
      rw [hE]
      simp

/-- Inversion: a successful read_xtboutputLines run implies the charge file
parsed. -/
theorem read_xtboutputLines_chargeParse (chargeLines gradLines : List String)
    (p : ℚ × List (ℚ × ℚ × ℚ × ℚ))
    (h : read_xtboutputLines chargeLines gradLines = some p) :
    (chargeParse chargeLines).isSome := by
  rw [read_xtboutputLines] at h
  cases hc : chargeParse chargeLines with
  | none => rw [hc] at h; simp at h
  | some ac => simp

/-- Claim C1 as stated is false: with one atom (one non-blank charge line),
the force row returned by read_xtboutput is computed from line 4 of the
gradient file (content "1.0 2.0 3.0"), not from line 3 (content
"9.0 9.0 9.0") as the claim requires: the returned first force component is
the conversion of 1.0 and differs from the conversion of line 3's value 9.0. -/
theorem C1_counterexample :
    (read_xtboutput "1.0\n" "junk\nx x x x x x 2.0\n9.0 9.0 9.0\n1.0 2.0 3.0\n" =
      some (1260, [((-1190.5299 : ℚ), -2381.0598, -3571.5897, 1)])) ∧
    gradLineParse "9.0 9.0 9.0" = some (9, 9, 9) ∧
    ¬ ((-1190.5299 : ℚ) = -630 * 1.88973 * 9) := by
  refine ⟨by with_unfolding_all rfl, by with_unfolding_all rfl, by norm_num⟩

/-- Claim C1 (amended): the per-atom gradient values parsed by read_xtboutput
are taken from lines N+3 through 2N+2 of the gradient/energy result file
(1-based), i.e. the i-th row of the returned array is computed from the line
with 0-based index N+2+i, where N is the atom count derived from the
point-charge result file. -/
theorem C1_gradient_line_indexing
    (chargeLines gradLines : List String) (ac : List ℚ) (en : ℚ)
    (info : List (ℚ × ℚ × ℚ × ℚ))
    (hc : chargeParse chargeLines = some ac)
    (h : read_xtboutputLines chargeLines gradLines = some (en, info))
    (i : Nat) (hi : i < ac.length) (hline : ac.length + 3 + i ≤ gradLines.length) :
    info[i]? = (gradLineParse (gradLines.getD (ac.length + 2 + i) "")).map (rowConv ac i) :=
  (read_xtboutputLines_char chargeLines gradLines ac en info hc h).2.1 i hi hline

/-- Witness for C1_gradient_line_indexing at a concrete input. -/
theorem C1_gradient_line_indexing_witness :
    chargeParse ["1.0"] = some [1] ∧
    read_xtboutputLines ["1.0"] ["junk", "x x x x x x 2.0", "9.0 9.0 9.0", "1.0 2.0 3.0"] =
      some (1260, ([((-1190.5299 : ℚ), (-2381.0598 : ℚ), (-3571.5897 : ℚ), (1 : ℚ))] :
        List (ℚ × ℚ × ℚ × ℚ))) ∧
    ([((-1190.5299 : ℚ), (-2381.0598 : ℚ), (-3571.5897 : ℚ), (1 : ℚ))] :
        List (ℚ × ℚ × ℚ × ℚ))[0]? =
      (gradLineParse (["junk", "x x x x x x 2.0", "9.0 9.0 9.0", "1.0 2.0 3.0"].getD 3 "")).map
        (rowConv [1] 0) :=
  ⟨by with_unfolding_all rfl, by with_unfolding_all rfl,
   C1_gradient_line_indexing ["1.0"]
     ["junk", "x x x x x x 2.0", "9.0 9.0 9.0", "1.0 2.0 3.0"] [1] 1260
     ([((-1190.5299 : ℚ), (-2381.0598 : ℚ), (-3571.5897 : ℚ), (1 : ℚ))] :
        List (ℚ × ℚ × ℚ × ℚ))
     (by with_unfolding_all rfl) (by with_unfolding_all rfl) 0 (by decide) (by decide)⟩

/-- Claim C5: every gradient value g parsed from the engine gradient file is
stored as the force component -630 * 1.88973 * g (together with the atom's
charge from the charge file). -/
theorem C5_force_conversion
    (chargeLines gradLines : List String) (ac : List ℚ) (en : ℚ)
    (info : List (ℚ × ℚ × ℚ × ℚ)) (g : ℚ × ℚ × ℚ)
    (hc : chargeParse chargeLines = some ac)
    (h : read_xtboutputLines chargeLines gradLines = some (en, info))
    (i : Nat) (hi : i < ac.length) (hline : ac.length + 3 + i ≤ gradLines.length)
    (hg : gradLineParse (gradLines.getD (ac.length + 2 + i) "") = some g) :
    info[i]? = some (-630 * 1.88973 * g.1, -630 * 1.88973 * g.2.1,
                     -630 * 1.88973 * g.2.2, ac.getD i 0) := by
  have hrow := (read_xtboutputLines_char chargeLines gradLines ac en info hc h).2.1 i hi hline
  rw [hg] at hrow
  rw [hrow]
  have hconv : rowConv ac i g = (-630 * 1.88973 * g.1, -630 * 1.88973 * g.2.1,
      -630 * 1.88973 * g.2.2, ac.getD i 0) := by
    rw [rowConv, Prod.mk.injEq, Prod.mk.injEq, Prod.mk.injEq]
    refine ⟨by ring, by ring, by ring, rfl⟩
  rw [Option.map_some', hconv]

/-- Witness for C5_force_conversion at a concrete input. -/
theorem C5_force_conversion_witness :
    chargeParse ["0.5"] = some [1/2] ∧
    read_xtboutputLines ["0.5"] ["h", "x x x x x x 2.0", "skip", "1.0 2.0 3.0"] =
      some (1260, ([((-1190.5299 : ℚ), (-2381.0598 : ℚ), (-3571.5897 : ℚ), (1/2 : ℚ))] :
        List (ℚ × ℚ × ℚ × ℚ))) ∧
    ([((-1190.5299 : ℚ), (-2381.0598 : ℚ), (-3571.5897 : ℚ), (1/2 : ℚ))] :
        List (ℚ × ℚ × ℚ × ℚ))[0]? =
      some ((-630 * 1.88973 * 1 : ℚ), (-630 * 1.88973 * 2 : ℚ), (-630 * 1.88973 * 3 : ℚ),
        ([(1/2 : ℚ)]).getD 0 0) :=
  ⟨by with_unfolding_all rfl, by with_unfolding_all rfl,
   C5_force_conversion ["0.5"] ["h", "x x x x x x 2.0", "skip", "1.0 2.0 3.0"]
     [1/2] 1260 ([((-1190.5299 : ℚ), (-2381.0598 : ℚ), (-3571.5897 : ℚ), (1/2 : ℚ))] :
        List (ℚ × ℚ × ℚ × ℚ)) ((1 : ℚ), (2 : ℚ), (3 : ℚ))
     (by with_unfolding_all rfl) (by with_unfolding_all rfl) 0 (by decide) (by decide)
     (by with_unfolding_all rfl)⟩

/-- Claim C6: the energy returned by read_xtboutput is 630 times field index
6 (0-based) of the second line of the gradient/energy result file. -/
theorem C6_energy_conversion
    (chargeLines gradLines : List String) (en e : ℚ)
    (info : List (ℚ × ℚ × ℚ × ℚ))
    (h : read_xtboutputLines chargeLines gradLines = some (en, info))
    (he : energyLineParse (gradLines.getD 1 "") = some e) :
    en = 630 * e := by
  obtain ⟨ac, hc⟩ := Option.isSome_iff_exists.mp
    (read_xtboutputLines_chargeParse chargeLines gradLines (en, info) h)
  have hE := (read_xtboutputLines_char chargeLines gradLines ac en info hc h).2.2.2
  rw [he] at hE
  simp only [Option.map_some', Option.some.injEq] at hE
  rw [hE]; ring

/-- Witness for C6_energy_conversion at a concrete input. -/
theorem C6_energy_conversion_witness :
    read_xtboutputLines [""] ["a", "f0 f1 f2 f3 f4 f5 -0.5"] = some (-315, []) ∧
    energyLineParse (["a", "f0 f1 f2 f3 f4 f5 -0.5"].getD 1 "") = some (-(1/2)) ∧
    (-315 : ℚ) = 630 * (-(1/2)) :=
  ⟨by with_unfolding_all rfl, by with_unfolding_all rfl,
   C6_energy_conversion [""] ["a", "f0 f1 f2 f3 f4 f5 -0.5"] (-315) (-(1/2)) []
     (by with_unfolding_all rfl) (by with_unfolding_all rfl)⟩

/-- Claim C8: for engine result files whose point-charge file has N non-blank
parsing lines and whose gradient file is long enough and well formed, the
returned per-atom array has exactly N entries, and entry i's charge is the
float parsed from the i-th non-blank line of the point-charge result file. -/
theorem C8_index_correspondence
    (chargeLines gradLines : List String) (ac : List ℚ)
    (hc : chargeParse chargeLines = some ac)
    (hlen : ac.length + ac.length + 2 ≤ gradLines.length)
    (he : (energyLineParse (gradLines.getD 1 "")).isSome)
    (hg : ∀ j, j < ac.length →
      (gradLineParse (gradLines.getD (ac.length + 2 + j) "")).isSome) :
    ∃ en info, read_xtboutputLines chargeLines gradLines = some (en, info) ∧
      info.length = (chargeLines.filter fun l => ¬ (pyStrip l = "")).length ∧
      (∀ i, i < info.length → ∃ r, info[i]? = some r ∧
        some r.2.2.2 = ((chargeLines.filter fun l => ¬ (pyStrip l = ""))[i]?).bind
          fun l => parseFloat (pyStrip l)) := by
  have hex := read_xtboutputLines_isSome chargeLines gradLines ac hc (by omega) he
    (fun j hj _ => hg j hj)
  obtain ⟨p, hp⟩ := Option.isSome_iff_exists.mp hex
  obtain ⟨en, info⟩ := p
  obtain ⟨hl, hw, hf, hE⟩ := read_xtboutputLines_char chargeLines gradLines ac en info hc hp
  have hfl : ac.length = (chargeLines.filter fun l => ¬ (pyStrip l = "")).length :=
    mapM_option_length _ _ _ hc
  refine ⟨en, info, hp, by omega, ?_⟩
  intro i hi
  have hi' : i < ac.length := by omega
  have hrow := hw i hi' (by omega)
  cases hgp : gradLineParse (gradLines.getD (ac.length + 2 + i) "") with
  | none => rw [hgp] at hrow; have := hg i hi'; rw [hgp] at this; simp at this
  | some g =>
    rw [hgp, Option.map_some'] at hrow
    refine ⟨rowConv ac i g, hrow, ?_⟩
    have hgel := mapM_option_getElem _ _ _ hc i (by omega)
    have hacd : (rowConv ac i g).2.2.2 = ac.getD i 0 := rfl
    rw [hacd, List.getD_eq_getElem?_getD, List.getElem?_eq_getElem hi', ← hgel,
      List.getElem?_eq_getElem hi']
    rfl

/-- Witness for C8_index_correspondence at a concrete input with two atoms. -/
theorem C8_index_correspondence_witness :
    ∃ en info,
      read_xtboutputLines ["0.1", "", "0.2"]
        ["h", "x x x x x x 1.0", "c", "c", "1.0 0.0 0.0", "0.0 1.0 0.0"] = some (en, info) ∧
      info.length = ((["0.1", "", "0.2"]).filter fun l => ¬ (pyStrip l = "")).length ∧
      (∀ i, i < info.length → ∃ r, info[i]? = some r ∧
        some r.2.2.2 = (((["0.1", "", "0.2"]).filter fun l => ¬ (pyStrip l = ""))[i]?).bind
          fun l => parseFloat (pyStrip l)) :=
  C8_index_correspondence ["0.1", "", "0.2"]
    ["h", "x x x x x x 1.0", "c", "c", "1.0 0.0 0.0", "0.0 1.0 0.0"]
    [1/10, 2/10] (by with_unfolding_all rfl) (by decide)
    (by with_unfolding_all decide)
    (by
      intro j hj
      simp only [List.length_cons, List.length_nil] at hj
      have hj2 : j = 0 ∨ j = 1 := by omega
      rcases hj2 with hh | hh <;> subst hh <;> with_unfolding_all decide)

/-- Claim C10: when the point-charge file yields N > 0 charges but the
gradient file has at least two lines and fewer lines than the 2N+2 the loop
expects, read_xtboutput still returns normally and every row whose gradient
line is absent is left entirely zero (forces and charge). -/
theorem C10_short_gradient_silently_zero
    (chargeLines gradLines : List String) (ac : List ℚ)
    (hc : chargeParse chargeLines = some ac) (_hpos : 0 < ac.length)
    (hg2 : 2 ≤ gradLines.length)
    (_hshort : gradLines.length < ac.length + ac.length + 2)
    (he : (energyLineParse (gradLines.getD 1 "")).isSome)
    (hg : ∀ j, j < ac.length → ac.length + 3 + j ≤ gradLines.length →
      (gradLineParse (gradLines.getD (ac.length + 2 + j) "")).isSome) :
    ∃ en info, read_xtboutputLines chargeLines gradLines = some (en, info) ∧
      (∀ i, i < ac.length → gradLines.length < ac.length + 3 + i →
        info[i]? = some (0, 0, 0, 0)) := by
  have hex := read_xtboutputLines_isSome chargeLines gradLines ac hc hg2 he hg
  obtain ⟨p, hp⟩ := Option.isSome_iff_exists.mp hex
  obtain ⟨en, info⟩ := p
  obtain ⟨hl, hw, hf, hE⟩ := read_xtboutputLines_char chargeLines gradLines ac en info hc hp
  exact ⟨en, info, hp, fun i hi hb => hf i hi hb⟩

/-- Witness for C10_short_gradient_silently_zero: two atoms, a gradient file
with only the header and energy lines; both rows come back zero. -/
theorem C10_short_gradient_silently_zero_witness :
    ∃ en info,
      read_xtboutputLines ["1.5", "2.5"] ["h", "x x x x x x 2.0"] = some (en, info) ∧
      (∀ i, i < ([(1.5 : ℚ), (2.5 : ℚ)]).length →
        (["h", "x x x x x x 2.0"] : List String).length < ([(1.5 : ℚ), (2.5 : ℚ)]).length + 3 + i →
        info[i]? = some (0, 0, 0, 0)) :=
  C10_short_gradient_silently_zero ["1.5", "2.5"] ["h", "x x x x x x 2.0"]
    [(1.5 : ℚ), (2.5 : ℚ)] (by with_unfolding_all rfl) (by decide) (by decide) (by decide)
    (by with_unfolding_all decide)
    (by intro j hj hb; simp only [List.length_cons, List.length_nil] at hj hb; omega)

/-- Conversion applied by the point-charge loop body at source lines 77-81 to
one parsed point-charge line. -/
def pcConv (w : ℚ × (ℚ × ℚ × ℚ)) : ℚ × ℚ × ℚ × ℚ :=
  (w.1, w.2.1 * bohrPerUnit, w.2.2.1 * bohrPerUnit, w.2.2.2 * bohrPerUnit)

/-- Characterization of a successful namdLoop run started at line number lc:
atom row i mirrors the line numbered i+2 and point-charge row j mirrors the
line numbered N+2+j when those lines are among the processed ones, and the
rows are untouched otherwise. -/
theorem namdLoop_char (N M : Nat) (ls : List String) :
    ∀ (lc : Nat) (st st' : NamdInput),
      namdLoop N M st lc ls = some st' →
      st.element.length = N → st.coor.length = N → st.pcharge.length = M →
      2 ≤ lc →
      st'.element.length = N ∧ st'.coor.length = N ∧ st'.pcharge.length = M ∧
      (∀ i, i < N → lc ≤ i + 2 → i + 2 < lc + ls.length →
        st'.element[i]? = (atomLineParse (ls.getD (i + 2 - lc) "")).map (fun a => some a.2) ∧
        st'.coor[i]? = (atomLineParse (ls.getD (i + 2 - lc) "")).map (fun a => a.1)) ∧
      (∀ i, i < N → ¬(lc ≤ i + 2 ∧ i + 2 < lc + ls.length) →
        st'.element[i]? = st.element[i]? ∧ st'.coor[i]? = st.coor[i]?) ∧
      (∀ j, j < M → lc ≤ N + 2 + j → N + 2 + j < lc + ls.length →
        st'.pcharge[j]? = (pcLineParse (ls.getD (N + 2 + j - lc) "")).map pcConv) ∧
      (∀ j, j < M → ¬(lc ≤ N + 2 + j ∧ N + 2 + j < lc + ls.length) →
        st'.pcharge[j]? = st.pcharge[j]?) := by
  induction ls with
  | nil =>
    intro lc st st' h he hco hpc hlc
    simp only [namdLoop, Option.some.injEq] at h
    subst h
    refine ⟨he, hco, hpc, ?_, ?_, ?_, ?_⟩
    · intro i _ _ hw; simp only [List.length_nil] at hw; omega
    · intro i _ _; exact ⟨rfl, rfl⟩
    · intro j _ _ hw; simp only [List.length_nil] at hw; omega
    · intro j _ _; rfl
  | cons line rest ih =>
    intro lc st st' h he hco hpc hlc
    by_cases h1 : 1 < lc ∧ lc ≤ N + 1
    · simp only [namdLoop] at h
      rw [if_pos h1] at h
      cases hap : atomLineParse line with
      | none => rw [hap] at h; simp at h
      | some a =>
        rw [hap] at h
        obtain ⟨xyz, e⟩ := a
        dsimp only at h
        obtain ⟨ihe, ihco, ihpc, ihaw, ihaf, ihpw, ihpf⟩ :=
          ih (lc + 1) _ st' h (by simpa using he) (by simpa using hco) (by simpa using hpc)
            (by omega)
        refine ⟨ihe, ihco, ihpc, ?_, ?_, ?_, ?_⟩
        · intro i hi hw1 hw2
          simp only [List.length_cons] at hw2
          by_cases hcur : i + 2 = lc
          · have hidx : lc - 2 = i := by omega
            obtain ⟨hfe, hfc⟩ := ihaf i hi (by omega)
            have hz : i + 2 - lc = 0 := by omega
            rw [hz, List.getD_cons_zero, hap]
            constructor
            · rw [hfe]
              dsimp only
              rw [hidx, List.getElem?_set_self (by omega)]
              rfl
            · rw [hfc]
              dsimp only
              rw [hidx, List.getElem?_set_self (by omega)]
              rfl
          · have hx : i + 2 - lc = (i + 2 - (lc + 1)) + 1 := by omega
            rw [hx, List.getD_cons_succ]
            exact ihaw i hi (by omega) (by omega)
        · intro i hi hw
          simp only [List.length_cons] at hw
          have hne : lc - 2 ≠ i := by omega
          obtain ⟨hfe, hfc⟩ := ihaf i hi (by omega)
          constructor
          · rw [hfe]; dsimp only; rw [List.getElem?_set_ne hne]
          · rw [hfc]; dsimp only; rw [List.getElem?_set_ne hne]
        · intro j hj hw1 hw2
          simp only [List.length_cons] at hw2
          have hcur : N + 2 + j ≠ lc := by omega
          have hx : N + 2 + j - lc = (N + 2 + j - (lc + 1)) + 1 := by omega
          rw [hx, List.getD_cons_succ]
          exact ihpw j hj (by omega) (by omega)
        · intro j hj hw
          simp only [List.length_cons] at hw
          have hfp := ihpf j hj (by omega)
          rw [hfp]
    · by_cases h2 : 1 + N < lc ∧ lc ≤ 1 + N + M
      · simp only [namdLoop] at h
        rw [if_neg h1, if_pos h2] at h
        cases hpp : pcLineParse line with
        | none => rw [hpp] at h; simp at h
        | some w =>
          rw [hpp] at h
          obtain ⟨q, x, y, z⟩ := w
          dsimp only at h
          obtain ⟨ihe, ihco, ihpc, ihaw, ihaf, ihpw, ihpf⟩ :=
            ih (lc + 1) _ st' h (by simpa using he) (by simpa using hco) (by simpa using hpc)
              (by omega)
          refine ⟨ihe, ihco, ihpc, ?_, ?_, ?_, ?_⟩
          · intro i hi hw1 hw2
            simp only [List.length_cons] at hw2
            have hcur : i + 2 ≠ lc := by omega
            have hx : i + 2 - lc = (i + 2 - (lc + 1)) + 1 := by omega
            rw [hx, List.getD_cons_succ]
            exact ihaw i hi (by omega) (by omega)
          · intro i hi hw
            simp only [List.length_cons] at hw
            exact ihaf i hi (by omega)
          · intro j hj hw1 hw2
            simp only [List.length_cons] at hw2
            by_cases hcur : N + 2 + j = lc
            · have hidx : lc - 2 - N = j := by omega
              have hfp := ihpf j hj (by omega)
              have hz : N + 2 + j - lc = 0 := by omega
              rw [hz, List.getD_cons_zero, hpp]
              rw [hfp]
              dsimp only
              rw [hidx, List.getElem?_set_self (by omega)]
              rfl
            · have hx : N + 2 + j - lc = (N + 2 + j - (lc + 1)) + 1 := by omega
              rw [hx, List.getD_cons_succ]
              exact ihpw j hj (by omega) (by omega)
          · intro j hj hw
            simp only [List.length_cons] at hw
            have hne : lc - 2 - N ≠ j := by omega
            have hfp := ihpf j hj (by omega)
            rw [hfp]
            dsimp only
            rw [List.getElem?_set_ne hne]
      · simp only [namdLoop] at h
        rw [if_neg h1, if_neg h2] at h
        obtain ⟨ihe, ihco, ihpc, ihaw, ihaf, ihpw, ihpf⟩ :=
          ih (lc + 1) st st' h he hco hpc (by omega)
        refine ⟨ihe, ihco, ihpc, ?_, ?_, ?_, ?_⟩
        · intro i hi hw1 hw2
          simp only [List.length_cons] at hw2
          have hcur : i + 2 ≠ lc := by omega
          have hx : i + 2 - lc = (i + 2 - (lc + 1)) + 1 := by omega
          rw [hx, List.getD_cons_succ]
          exact ihaw i hi (by omega) (by omega)
        · intro i hi hw
          simp only [List.length_cons] at hw
          exact ihaf i hi (by omega)
        · intro j hj hw1 hw2
          simp only [List.length_cons] at hw2
          have hcur : N + 2 + j ≠ lc := by omega
          have hx : N + 2 + j - lc = (N + 2 + j - (lc + 1)) + 1 := by omega
          rw [hx, List.getD_cons_succ]
          exact ihpw j hj (by omega) (by omega)
        · intro j hj hw
          simp only [List.length_cons] at hw
          exact ihpf j hj (by omega)

/-- A namdLoop run succeeds whenever every line it will actually parse (the
atom lines numbered 2..N+1 and the point-charge lines numbered N+2..N+M+1)
parses. -/
theorem namdLoop_isSome (N M : Nat) (ls : List String) :
    ∀ (lc : Nat) (st : NamdInput),
      2 ≤ lc →
      (∀ k, k < ls.length →
        (1 < lc + k ∧ lc + k ≤ N + 1 → (atomLineParse (ls.getD k "")).isSome) ∧
        (1 + N < lc + k ∧ lc + k ≤ 1 + N + M → (pcLineParse (ls.getD k "")).isSome)) →
      (namdLoop N M st lc ls).isSome := by
  induction ls with
  | nil => intro lc st _ _; simp [namdLoop]
  | cons line rest ih =>
    intro lc st hlc hok
    have hrest : ∀ k, k < rest.length →
        (1 < lc + 1 + k ∧ lc + 1 + k ≤ N + 1 → (atomLineParse (rest.getD k "")).isSome) ∧
        (1 + N < lc + 1 + k ∧ lc + 1 + k ≤ 1 + N + M →
          (pcLineParse (rest.getD k "")).isSome) := by
      intro k hk
      have hkk := hok (k + 1) (by simp only [List.length_cons]; omega)
      rw [List.getD_cons_succ] at hkk
      exact ⟨fun hh => hkk.1 (by omega), fun hh => hkk.2 ⟨by omega, by omega⟩⟩
    by_cases h1 : 1 < lc ∧ lc ≤ N + 1
    · simp only [namdLoop]
      rw [if_pos h1]
      have ha : (atomLineParse line).isSome := by
        have haa := (hok 0 (by simp only [List.length_cons]; omega)).1 (by omega)
        simpa using haa
      cases hap : atomLineParse line with
      | none => rw [hap] at ha; simp at ha
      | some a =>
        obtain ⟨xyz, e⟩ := a
        dsimp only
        exact ih (lc + 1) _ (by omega) hrest
    · by_cases h2 : 1 + N < lc ∧ lc ≤ 1 + N + M
      · simp only [namdLoop]
        rw [if_neg h1, if_pos h2]
        have hp : (pcLineParse line).isSome := by
          have hpa := (hok 0 (by simp only [List.length_cons]; omega)).2 (by omega)
          simpa using hpa
        cases hpp : pcLineParse line with
        | none => rw [hpp] at hp; simp at hp
        | some w =>
          obtain ⟨q, x, y, z⟩ := w
          dsimp only
          exact ih (lc + 1) _ (by omega) hrest
      · simp only [namdLoop]
        rw [if_neg h1, if_neg h2]
        exact ih (lc + 1) st (by omega) hrest

/-- A namdLoop run dies (returns none, modelling the uncaught exception) as
soon as some line it visits within the atom or point-charge range fails to
parse. -/
theorem namdLoop_fails (N M : Nat) (ls : List String) :
    ∀ (lc : Nat) (st : NamdInput) (k : Nat),
      k < ls.length →
      ((1 < lc + k ∧ lc + k ≤ N + 1 ∧ atomLineParse (ls.getD k "") = none) ∨
       (1 + N < lc + k ∧ lc + k ≤ 1 + N + M ∧ pcLineParse (ls.getD k "") = none)) →
      namdLoop N M st lc ls = none := by
  induction ls with
  | nil => intro lc st k hk _; simp only [List.length_nil] at hk; omega
  | cons line rest ih =>
    intro lc st k hk hbad
    cases k with
    | zero =>
      simp only [List.getD_cons_zero] at hbad
      rcases hbad with ⟨hb1, hb2, hb3⟩ | ⟨hb1, hb2, hb3⟩
      · simp only [namdLoop]
        rw [if_pos (by omega : 1 < lc ∧ lc ≤ N + 1), hb3]
      · simp only [namdLoop]
        rw [if_neg (by omega : ¬(1 < lc ∧ lc ≤ N + 1)),
          if_pos (by omega : 1 + N < lc ∧ lc ≤ 1 + N + M), hb3]
    | succ k0 =>
      simp only [List.getD_cons_succ] at hbad
      simp only [List.length_cons] at hk
      have hbad2 : (1 < lc + 1 + k0 ∧ lc + 1 + k0 ≤ N + 1 ∧
          atomLineParse (rest.getD k0 "") = none) ∨
          (1 + N < lc + 1 + k0 ∧ lc + 1 + k0 ≤ 1 + N + M ∧
          pcLineParse (rest.getD k0 "") = none) := by
        rcases hbad with ⟨hb1, hb2, hb3⟩ | ⟨hb1, hb2, hb3⟩
        · exact Or.inl ⟨by omega, by omega, hb3⟩
        · exact Or.inr ⟨by omega, by omega, hb3⟩
      by_cases h1 : 1 < lc ∧ lc ≤ N + 1
      · simp only [namdLoop]
        rw [if_pos h1]
        cases hap : atomLineParse line with
        | none => rfl
        | some a =>
          obtain ⟨xyz, e⟩ := a
          dsimp only
          exact ih (lc + 1) _ k0 (by omega) hbad2
      · by_cases h2 : 1 + N < lc ∧ lc ≤ 1 + N + M
        · simp only [namdLoop]
          rw [if_neg h1, if_pos h2]
          cases hpp : pcLineParse line with
          | none => rfl
          | some w =>
            obtain ⟨q, x, y, z⟩ := w
            dsimp only
            exact ih (lc + 1) _ k0 (by omega) hbad2
        · simp only [namdLoop]
          rw [if_neg h1, if_neg h2]
          exact ih (lc + 1) st k0 (by omega) hbad2

/-- An atom line with fewer than four whitespace fields always raises: field
index 3 is accessed after the three coordinates. -/
theorem atomLineParse_eq_none_of_short (line : String)
    (h : (pySplit (pyStrip line)).length < 4) : atomLineParse line = none := by
  rw [atomLineParse]
  simp only [Option.bind_eq_bind]
  have h3 : (pySplit (pyStrip line)).get? 3 = none := by
    rw [List.get?_eq_getElem?]
    exact List.getElem?_eq_none (by omega)
  cases h0 : ((pySplit (pyStrip line)).get? 0).bind parseFloat with
  | none => simp
  | some x =>
    simp only [Option.some_bind]
    cases hh1 : ((pySplit (pyStrip line)).get? 1).bind parseFloat with
    | none => simp
    | some y =>
      simp only [Option.some_bind]
      cases hh2 : ((pySplit (pyStrip line)).get? 2).bind parseFloat with
      | none => simp
      | some z =>
        simp only [Option.some_bind, h3]
        simp

/-- A point-charge line with fewer than four whitespace fields always raises:
field index 3 (the magnitude) is accessed first. -/
theorem pcLineParse_eq_none_of_short (line : String)
    (h : (pySplit (pyStrip line)).length < 4) : pcLineParse line = none := by
  rw [pcLineParse]
  simp only [Option.bind_eq_bind]
  have h3 : (pySplit (pyStrip line)).get? 3 = none := by
    rw [List.get?_eq_getElem?]
    exact List.getElem?_eq_none (by omega)
  rw [h3]
  simp

/-- Malformed first line in the sense of claim C9: the step file has a first
line, and it has fewer than two whitespace fields or a count field that is
not a Python integer. -/
def headerBad (lines : List String) : Prop :=
  lines ≠ [] ∧
    ((pySplit (pyStrip (lines.getD 0 ""))).length < 2 ∨
     pyParseInt ((pySplit (pyStrip (lines.getD 0 ""))).getD 0 "") = none ∨
     pyParseInt ((pySplit (pyStrip (lines.getD 0 ""))).getD 1 "") = none)

/-- A malformed first line makes the header parse raise. -/
theorem headerParse_eq_none_of_bad (lines : List String) (hb : headerBad lines) :
    headerParse lines = none := by
  obtain ⟨hne, hcases⟩ := hb
  cases lines with
  | nil => exact absurd rfl hne
  | cons l1 rest =>
    simp only [List.getD_cons_zero] at hcases
    rw [headerParse]
    simp only [List.head?_cons, Option.some_bind, Option.bind_eq_bind]
    cases hfs : pySplit (pyStrip l1) with
    | nil => simp
    | cons f0 fs1 =>
      cases fs1 with
      | nil => simp
      | cons f1 fs2 =>
        rw [hfs] at hcases
        simp only [List.length_cons, List.getD_cons_zero, List.getD_cons_succ] at hcases
        rcases hcases with hlt | hp0 | hp1
        · omega
        · simp only [List.get?_cons_zero, List.get?_cons_succ, Option.some_bind, hp0]
          simp
        · cases hp0 : pyParseInt f0 with
          | none => simp [hp0]
          | some n0 => simp [hp0, hp1]

/-- Claim C9: a step file whose first line is malformed (missing fields or
counts that are not integers), or in which some present atom or point-charge
line has fewer than four fields, makes read_namdinput raise; no incomplete
result is returned. -/
theorem C9_malformed_input_fatal (lines : List String)
    (hbad : headerBad lines ∨
      (∃ N M, headerParse lines = some (N, M) ∧
        ((∃ i, i < N ∧ i + 1 < lines.length ∧
          (pySplit (pyStrip (lines.getD (i + 1) ""))).length < 4) ∨
         (∃ j, j < M ∧ N + 1 + j < lines.length ∧
          (pySplit (pyStrip (lines.getD (N + 1 + j) ""))).length < 4)))) :
    read_namdinputLines lines = none := by
  rcases hbad with hb | ⟨N, M, hh, hline⟩
  · rw [read_namdinputLines, headerParse_eq_none_of_bad lines hb]
    rfl
  · rw [read_namdinputLines, hh]
    simp only [Option.bind_eq_bind, Option.some_bind]
    cases lines with
    | nil => rw [headerParse] at hh; simp at hh
    | cons l1 rest =>
      rcases hline with ⟨i, hi, hlt, hshort⟩ | ⟨j, hj, hlt, hshort⟩
      · rw [List.getD_cons_succ] at hshort
        simp only [List.length_cons] at hlt
        exact namdLoop_fails N M rest 2 _ i (by omega)
          (Or.inl ⟨by omega, by omega, atomLineParse_eq_none_of_short _ hshort⟩)
      · have hx : N + 1 + j = (N + j) + 1 := by omega
        rw [hx, List.getD_cons_succ] at hshort
        simp only [List.length_cons] at hlt
        exact namdLoop_fails N M rest 2 _ (N + j) (by omega)
          (Or.inr ⟨by omega, by omega, pcLineParse_eq_none_of_short _ hshort⟩)

/-- Witness for C9_malformed_input_fatal: an atom line with only three
fields kills the parse. -/
theorem C9_malformed_input_fatal_witness :
    (pySplit (pyStrip "0.0 0.0 H")).length < 4 ∧
    read_namdinputLines ["2 1", "0.0 0.0 H"] = none :=
  ⟨by with_unfolding_all decide,
   C9_malformed_input_fatal ["2 1", "0.0 0.0 H"]
     (Or.inr ⟨2, 1, by with_unfolding_all rfl,
       Or.inl ⟨0, by omega, by decide, by with_unfolding_all decide⟩⟩)⟩

/-- Claim C7: on a well-formed step file with counts N and M, read_namdinput
returns exactly N atoms (coordinates copied unchanged, element from field 3)
and exactly M point charges (coordinates multiplied by 1.88973, magnitude
copied unchanged), in file order. -/
theorem C7_read_namdinput_correct
    (lines : List String) (N M : Nat)
    (hh : headerParse lines = some (N, M))
    (hlen : 1 + N + M ≤ lines.length)
    (hatom : ∀ i, i < N → (atomLineParse (lines.getD (i + 1) "")).isSome)
    (hpc : ∀ j, j < M → (pcLineParse (lines.getD (N + 1 + j) "")).isSome) :
    ∃ st, read_namdinputLines lines = some st ∧
      st.element.length = N ∧ st.coor.length = N ∧ st.pcharge.length = M ∧
      (∀ i, i < N →
        st.element[i]? = (atomLineParse (lines.getD (i + 1) "")).map (fun a => some a.2) ∧
        st.coor[i]? = (atomLineParse (lines.getD (i + 1) "")).map (fun a => a.1)) ∧
      (∀ j, j < M →
        st.pcharge[j]? = (pcLineParse (lines.getD (N + 1 + j) "")).map pcConv) := by
  cases lines with
  | nil => rw [headerParse] at hh; simp at hh
  | cons l1 rest =>
    simp only [List.length_cons] at hlen
    have hok : ∀ k, k < rest.length →
        (1 < 2 + k ∧ 2 + k ≤ N + 1 → (atomLineParse (rest.getD k "")).isSome) ∧
        (1 + N < 2 + k ∧ 2 + k ≤ 1 + N + M → (pcLineParse (rest.getD k "")).isSome) := by
      intro k hk
      constructor
      · intro hcond
        have hia := hatom k (by omega)
        rwa [List.getD_cons_succ] at hia
      · intro hcond
        have hjp := hpc (k - N) (by omega)
        have hx : N + 1 + (k - N) = k + 1 := by omega
        rw [hx, List.getD_cons_succ] at hjp
        exact hjp
    have hsome := namdLoop_isSome N M rest 2
      ⟨List.replicate N none, List.replicate N (0, 0, 0), List.replicate M (0, 0, 0, 0)⟩
      (by omega) hok
    obtain ⟨st, hst⟩ := Option.isSome_iff_exists.mp hsome
    obtain ⟨he, hco, hpch, haw, haf, hpw, hpf⟩ :=
      namdLoop_char N M rest 2 _ st hst (by simp) (by simp) (by simp) (by omega)
    refine ⟨st, ?_, he, hco, hpch, ?_, ?_⟩
    · rw [read_namdinputLines, hh]
      simp only [Option.bind_eq_bind, Option.some_bind]
      exact hst
    · intro i hi
      have hw := haw i hi (by omega) (by omega)
      have hx : i + 2 - 2 = i := by omega
      rw [hx] at hw
      rw [List.getD_cons_succ]
      exact hw
    · intro j hj
      have hw := hpw j hj (by omega) (by omega)
      have hx : N + 2 + j - 2 = N + j := by omega
      rw [hx] at hw
      have hy : N + 1 + j = (N + j) + 1 := by omega
      rw [hy, List.getD_cons_succ]
      exact hw

/-- Witness for C7_read_namdinput_correct on the end-to-end example step
file of the spec. -/
theorem C7_read_namdinput_correct_witness :
    ∃ st,
      read_namdinputLines ["2 1", "0.0 0.0 0.0 H", "0.0 0.0 1.0 H", "0.0 0.0 2.0 0.5"] =
        some st ∧
      st.element.length = 2 ∧ st.coor.length = 2 ∧ st.pcharge.length = 1 ∧
      (∀ i, i < 2 →
        st.element[i]? = (atomLineParse
          ((["2 1", "0.0 0.0 0.0 H", "0.0 0.0 1.0 H", "0.0 0.0 2.0 0.5"]).getD (i + 1) "")).map
            (fun a => some a.2) ∧
        st.coor[i]? = (atomLineParse
          ((["2 1", "0.0 0.0 0.0 H", "0.0 0.0 1.0 H", "0.0 0.0 2.0 0.5"]).getD (i + 1) "")).map
            (fun a => a.1)) ∧
      (∀ j, j < 1 →
        st.pcharge[j]? = (pcLineParse
          ((["2 1", "0.0 0.0 0.0 H", "0.0 0.0 1.0 H", "0.0 0.0 2.0 0.5"]).getD (2 + 1 + j) "")).map
            pcConv) :=
  C7_read_namdinput_correct ["2 1", "0.0 0.0 0.0 H", "0.0 0.0 1.0 H", "0.0 0.0 2.0 0.5"] 2 1
    (by with_unfolding_all rfl) (by decide)
    (by
      intro i hi
      have hi2 : i = 0 ∨ i = 1 := by omega
      rcases hi2 with hh | hh <;> subst hh <;> with_unfolding_all decide)
    (by
      intro j hj
      have hj1 : j = 0 := by omega
      subst hj1
      with_unfolding_all decide)

/-- Claim C2 as stated is false in its final digit: the conversion pipeline
on the example step file writes 3.779460 (the 6-decimal rendering of
2.0 × 1.88973 = 3.77946) as the point charge's last coordinate, not
3.779470. -/
theorem C2_counterexample :
    convert_input "2 1\n0.0 0.0 0.0 H\n0.0 0.0 1.0 H\n0.0 0.0 2.0 0.5\n" =
      some ("2\n\nH 0.000000 0.000000 0.000000\nH 0.000000 0.000000 1.000000\n",
            "1\n0.500000 0.000000 0.000000 3.779460\n") ∧
    ¬ ("1\n0.500000 0.000000 0.000000 3.779460\n" =
       "1\n0.500000 0.000000 0.000000 3.779470\n") :=
  ⟨by with_unfolding_all rfl, by decide⟩

/-- Claim C2 (amended): the example step file converts to an atomic-structure
file beginning "2\n\nH 0.000000 0.000000 0.000000\nH 0.000000 0.000000
1.000000\n" and a point-charge file that is exactly
"1\n0.500000 0.000000 0.000000 3.779460\n". -/
theorem C2_convert_example :
    ∃ rest, convert_input "2 1\n0.0 0.0 0.0 H\n0.0 0.0 1.0 H\n0.0 0.0 2.0 0.5\n" =
      some ("2\n\nH 0.000000 0.000000 0.000000\nH 0.000000 0.000000 1.000000\n" ++ rest,
            "1\n0.500000 0.000000 0.000000 3.779460\n") :=
  ⟨"", by with_unfolding_all rfl⟩

/-- Reading at a head binding with matching path. -/
theorem fsRead_cons_eq (kv : String × String) (rest : Fs) (q : String)
    (h : kv.1 = q) : fsRead (kv :: rest) q = some kv.2 := by
  rw [fsRead, List.find?_cons_of_pos _ (by simpa using h)]
  rfl

/-- Reading past a head binding with a different path. -/
theorem fsRead_cons_ne (kv : String × String) (rest : Fs) (q : String)
    (h : ¬ (kv.1 = q)) : fsRead (kv :: rest) q = fsRead rest q := by
  rw [fsRead, List.find?_cons_of_neg _ (by simpa using h)]
  rfl

/-- Reading the written path returns the written content. -/
theorem fsRead_fsWrite_self (fs : Fs) (p c : String) :
    fsRead (fsWrite fs p c) p = some c := by
  rw [fsWrite, fsRead_cons_eq _ _ _ rfl]

/-- Filtering out one path does not change reads of other paths. -/
theorem fsRead_filter_ne (fs : Fs) (p q : String) (hne : q ≠ p) :
    fsRead (fs.filter fun kv => ¬ (kv.1 == p)) q = fsRead fs q := by
  induction fs with
  | nil => rfl
  | cons kv rest ih =>
    by_cases hk : kv.1 = p
    · rw [List.filter_cons_of_neg (by simp [hk]), ih,
        fsRead_cons_ne kv rest q (by rw [hk]; exact fun hq => hne hq.symm)]
    · rw [List.filter_cons_of_pos (by simp [hk])]
      by_cases hq : kv.1 = q
      · rw [fsRead_cons_eq _ _ _ hq, fsRead_cons_eq _ _ _ hq]
      · rw [fsRead_cons_ne _ _ _ hq, fsRead_cons_ne _ _ _ hq, ih]

/-- Filtering out a path makes it unreadable. -/
theorem fsRead_filter_self (fs : Fs) (p : String) :
    fsRead (fs.filter fun kv => ¬ (kv.1 == p)) p = none := by
  induction fs with
  | nil => rfl
  | cons kv rest ih =>
    by_cases hk : kv.1 = p
    · rw [List.filter_cons_of_neg (by simp [hk])]
      exact ih
    · rw [List.filter_cons_of_pos (by simp [hk]), fsRead_cons_ne _ _ _ hk]
      exact ih

/-- Inversion of a successful os.remove: the result is the filtered list. -/
theorem fsRemove_eq (f f' : Fs) (p : String) (h : fsRemove f p = some f') :
    f' = f.filter fun kv => ¬ (kv.1 == p) := by
  rw [fsRemove] at h
  by_cases hs : (fsRead f p).isSome
  · rw [if_pos hs] at h
    exact (Option.some.injEq _ _ ▸ h).symm
  · rw [if_neg hs] at h
    simp at h

/-- Equal character data means equal strings. -/
theorem str_data_eq (s t : String) (h : s.data = t.data) : s = t := by
  cases s; cases t; simp_all

/-- A list ending in a suffix whose reversal differs from the target's
reversal at some position inside the suffix cannot equal the target,
whatever is prepended. -/
theorem append_ne_of_end_diff (a t : List Char) (i : Nat) (hi : i < a.length)
    (hne : a.reverse[i]? ≠ t.reverse[i]?) (b : List Char) : ¬ (b ++ a = t) := by
  intro heq
  apply hne
  have hrev : a.reverse ++ b.reverse = t.reverse := by
    rw [← List.reverse_append, heq]
  rw [← hrev, List.getElem?_append_left (by simpa using hi)]

/-- String version of append_ne_of_end_diff. -/
theorem str_append_ne_of_end_diff (a t : String) (i : Nat) (hi : i < a.data.length)
    (hne : a.data.reverse[i]? ≠ t.data.reverse[i]?) (b : String) : ¬ (b ++ a = t) := by
  intro heq
  have hd : b.data ++ a.data = t.data := by
    rw [← String.data_append, heq]
  exact append_ne_of_end_diff a.data t.data i hi hne b.data hd

/-- Left cancellation for string append. -/
theorem str_append_left_cancel (s a b : String) (h : s ++ a = s ++ b) : a = b := by
  have hd : s.data ++ a.data = s.data ++ b.data := by
    rw [← String.data_append, ← String.data_append, h]
  exact str_data_eq a b (List.append_cancel_left hd)

/-- Appending different suffixes to the same path gives different paths. -/
theorem path_scratch_ne (path : String) (s1 s2 : String) (hne : s1 ≠ s2) :
    path ++ s1 ≠ path ++ s2 :=
  fun h => hne (str_append_left_cancel path s1 s2 h)

/-- The driver result path, which ends in ".result", differs from a scratch
path whose suffix's reversal differs from reverse(".result") at position i. -/
theorem namdoutput_ne_scratch (path base sfx : String) (i : Nat)
    (hi : i < (".result" : String).data.length)
    (hne : (".result" : String).data.reverse[i]? ≠ sfx.data.reverse[i]?) :
    ¬ (path ++ "/" ++ base ++ ".result" = path ++ "/" ++ sfx) := by
  intro h
  rw [String.append_assoc (path ++ "/") base ".result"] at h
  have h2 := str_append_left_cancel (path ++ "/") _ _ h
  exact str_append_ne_of_end_diff ".result" sfx i hi hne base h2

/-- The driver output is never the empty string: it begins with the
formatted energy and a newline. -/
theorem write_namdoutput_ne_empty (e : ℚ) (info : List (ℚ × ℚ × ℚ × ℚ)) :
    write_namdoutput e info ≠ "" := by
  intro h
  rw [write_namdoutput] at h
  have hd := congrArg String.data h
  simp only [String.data_append] at hd
  simp [List.append_eq_nil] at hd

/-- Inversion of a successful convert_output: the output is a nonempty
write_namdoutput rendering. -/
theorem convert_output_eq (cc gc out : String)
    (h : convert_output cc gc = some out) : out ≠ "" := by
  rw [convert_output] at h
  cases hr : read_xtboutput cc gc with
  | none => rw [hr] at h; simp at h
  | some p =>
    rw [hr] at h
    obtain ⟨en, info⟩ := p
    simp only [Option.bind_eq_bind, Option.some_bind, Option.pure_def,
      Option.some.injEq] at h
    rw [← h]
    exact write_namdoutput_ne_empty en info

/-- Inversion of a successful fs-level convert_output: the new filesystem is
the old one with a nonempty result file written. -/
theorem fs_convert_output_eq (fs : Fs) (ch gr nout : String) (fs3 : Fs)
    (h : fs_convert_output fs ch gr nout = some fs3) :
    ∃ out, fs3 = fsWrite fs nout out ∧ out ≠ "" := by
  rw [fs_convert_output] at h
  cases hcc : fsRead fs ch with
  | none => rw [hcc] at h; simp at h
  | some cc =>
    rw [hcc] at h
    simp only [Option.bind_eq_bind, Option.some_bind] at h
    cases hgc : fsRead fs gr with
    | none => rw [hgc] at h; simp at h
    | some gc =>
      rw [hgc] at h
      simp only [Option.some_bind] at h
      cases hco : convert_output cc gc with
      | none => rw [hco] at h; simp at h
      | some out =>
        rw [hco] at h
        simp only [Option.some_bind, Option.pure_def, Option.some.injEq] at h
        exact ⟨out, h.symm, convert_output_eq cc gc out hco⟩

/-- Inversion of the five sequential os.remove calls at source lines 193-197:
on success the final filesystem is the fivefold filtered one. -/
theorem removeChain_eq (fs3 : Fs) (p1 p2 p3 p4 p5 : String) (fs4 : Fs)
    (h : ((((fsRemove fs3 p1).bind fun f => fsRemove f p2).bind fun f =>
        (fsRemove f p3)).bind fun f =>
        ((fsRemove f p4).bind fun f2 => fsRemove f2 p5)) = some fs4) :
    fs4 = (((((fs3.filter fun kv => ¬ (kv.1 == p1)).filter fun kv => ¬ (kv.1 == p2)).filter
      fun kv => ¬ (kv.1 == p3)).filter fun kv => ¬ (kv.1 == p4)).filter
      fun kv => ¬ (kv.1 == p5)) := by
  cases hr1 : fsRemove fs3 p1 with
  | none => rw [hr1] at h; simp at h
  | some f1 =>
    rw [hr1] at h
    simp only [Option.some_bind] at h
    cases hr2 : fsRemove f1 p2 with
    | none => rw [hr2] at h; simp at h
    | some f2 =>
      rw [hr2] at h
      simp only [Option.some_bind] at h
      cases hr3 : fsRemove f2 p3 with
      | none => rw [hr3] at h; simp at h
      | some f3 =>
        rw [hr3] at h
        simp only [Option.some_bind] at h
        cases hr4 : fsRemove f3 p4 with
        | none => rw [hr4] at h; simp at h
        | some f4 =>
          rw [hr4] at h
          simp only [Option.some_bind] at h
          rw [fsRemove_eq f4 fs4 p5 h, fsRemove_eq f3 f4 p4 hr4,
            fsRemove_eq f2 f3 p3 hr3, fsRemove_eq f1 f2 p2 hr2,
            fsRemove_eq fs3 f1 p1 hr1]

/-- Claim C4: after a successful run_qmmm step none of the five scratch and
engine files exist in the scratch directory any more, while the driver
result file (step-file name plus ".result", same directory) exists with
nonempty content. -/
theorem C4_cleanup_invariant
    (xtb : EngineCall → Fs → Fs) (qmcharge : List ℤ) (fs : Fs) (directory : String)
    (fs' : Fs) (calls : List EngineCall)
    (h : run_qmmm xtb qmcharge fs directory = (some fs', calls)) :
    fsRead fs' (dirname directory ++ "/xtbxyz.xyz") = none ∧
    fsRead fs' (dirname directory ++ "/pcharge") = none ∧
    fsRead fs' (dirname directory ++ "/charges") = none ∧
    fsRead fs' (dirname directory ++ "/gradient") = none ∧
    fsRead fs' (dirname directory ++ "/xtbrestart") = none ∧
    ∃ content,
      fsRead fs' (dirname directory ++ "/" ++ basename directory ++ ".result") =
        some content ∧ content ≠ "" := by
  simp only [run_qmmm] at h
  cases hqp : pyParseInt ((splitOnChar '/' (dirname directory).data []).getLastD "") with
  | none => rw [hqp] at h; simp at h
  | some qmpart =>
    rw [hqp] at h
    dsimp only at h
    cases hci : fs_convert_input fs directory (dirname directory ++ "/xtbxyz.xyz")
        (dirname directory ++ "/pcharge") with
    | none => rw [hci] at h; simp at h
    | some fs1 =>
      rw [hci] at h
      dsimp only at h
      cases hlg : pyListGet qmcharge qmpart with
      | none => rw [hlg] at h; simp at h
      | some c =>
        rw [hlg] at h
        dsimp only at h
        cases hco : fs_convert_output
            (xtb ⟨dirname directory ++ "/xtbxyz.xyz", c⟩ fs1)
            (dirname directory ++ "/charges") (dirname directory ++ "/gradient")
            (dirname directory ++ "/" ++ basename directory ++ ".result") with
        | none => rw [hco] at h; simp at h
        | some fs3 =>
          rw [hco] at h
          dsimp only at h
          cases hrm : ((((fsRemove fs3 (dirname directory ++ "/xtbxyz.xyz")).bind fun f =>
              fsRemove f (dirname directory ++ "/pcharge")).bind fun f =>
              (fsRemove f (dirname directory ++ "/charges"))).bind fun f =>
              ((fsRemove f (dirname directory ++ "/gradient")).bind fun f2 =>
                fsRemove f2 (dirname directory ++ "/xtbrestart"))) with
          | none => rw [hrm] at h; simp at h
          | some fs4 =>
            rw [hrm] at h
            dsimp only at h
            rw [Prod.mk.injEq] at h
            obtain ⟨hf, hcl⟩ := h
            rw [Option.some.injEq] at hf
            subst hf
            obtain ⟨out, hfs3, hne⟩ := fs_convert_output_eq _ _ _ _ _ hco
            have hchain := removeChain_eq fs3 _ _ _ _ _ fs4 hrm
            have h12 : (dirname directory ++ "/xtbxyz.xyz") ≠
                (dirname directory ++ "/pcharge") :=
              path_scratch_ne _ _ _ (by decide)
            have h13 : (dirname directory ++ "/xtbxyz.xyz") ≠
                (dirname directory ++ "/charges") :=
              path_scratch_ne _ _ _ (by decide)
            have h14 : (dirname directory ++ "/xtbxyz.xyz") ≠
                (dirname directory ++ "/gradient") :=
              path_scratch_ne _ _ _ (by decide)
            have h15 : (dirname directory ++ "/xtbxyz.xyz") ≠
                (dirname directory ++ "/xtbrestart") :=
              path_scratch_ne _ _ _ (by decide)
            have h23 : (dirname directory ++ "/pcharge") ≠
                (dirname directory ++ "/charges") :=
              path_scratch_ne _ _ _ (by decide)
            have h24 : (dirname directory ++ "/pcharge") ≠
                (dirname directory ++ "/gradient") :=
              path_scratch_ne _ _ _ (by decide)
            have h25 : (dirname directory ++ "/pcharge") ≠
                (dirname directory ++ "/xtbrestart") :=
              path_scratch_ne _ _ _ (by decide)
            have h34 : (dirname directory ++ "/charges") ≠
                (dirname directory ++ "/gradient") :=
              path_scratch_ne _ _ _ (by decide)
            have h35 : (dirname directory ++ "/charges") ≠
                (dirname directory ++ "/xtbrestart") :=
              path_scratch_ne _ _ _ (by decide)
            have h45 : (dirname directory ++ "/gradient") ≠
                (dirname directory ++ "/xtbrestart") :=
              path_scratch_ne _ _ _ (by decide)
            have hax : dirname directory ++ "/xtbxyz.xyz" =
                dirname directory ++ "/" ++ "xtbxyz.xyz" := by
              rw [String.append_assoc]
              with_unfolding_all rfl
            have hap : dirname directory ++ "/pcharge" =
                dirname directory ++ "/" ++ "pcharge" := by
              rw [String.append_assoc]
              with_unfolding_all rfl
            have hac : dirname directory ++ "/charges" =
                dirname directory ++ "/" ++ "charges" := by
              rw [String.append_assoc]
              with_unfolding_all rfl
            have hag : dirname directory ++ "/gradient" =
                dirname directory ++ "/" ++ "gradient" := by
              rw [String.append_assoc]
              with_unfolding_all rfl
            have har : dirname directory ++ "/xtbrestart" =
                dirname directory ++ "/" ++ "xtbrestart" := by
              rw [String.append_assoc]
              with_unfolding_all rfl
            have hn1 : (dirname directory ++ "/" ++ basename directory ++ ".result") ≠
                (dirname directory ++ "/xtbxyz.xyz") := by
              rw [hax]
              exact namdoutput_ne_scratch _ _ "xtbxyz.xyz" 0 (by decide) (by decide)
            have hn2 : (dirname directory ++ "/" ++ basename directory ++ ".result") ≠
                (dirname directory ++ "/pcharge") := by
              rw [hap]
              exact namdoutput_ne_scratch _ _ "pcharge" 0 (by decide) (by decide)
            have hn3 : (dirname directory ++ "/" ++ basename directory ++ ".result") ≠
                (dirname directory ++ "/charges") := by
              rw [hac]
              exact namdoutput_ne_scratch _ _ "charges" 0 (by decide) (by decide)
            have hn4 : (dirname directory ++ "/" ++ basename directory ++ ".result") ≠
                (dirname directory ++ "/gradient") := by
              rw [hag]
              exact namdoutput_ne_scratch _ _ "gradient" 1 (by decide) (by decide)
            have hn5 : (dirname directory ++ "/" ++ basename directory ++ ".result") ≠
                (dirname directory ++ "/xtbrestart") := by
              rw [har]
              exact namdoutput_ne_scratch _ _ "xtbrestart" 1 (by decide) (by decide)
            subst hchain
            refine ⟨?_, ?_, ?_, ?_, ?_, out, ?_, hne⟩
            · rw [fsRead_filter_ne _ _ _ h15, fsRead_filter_ne _ _ _ h14,
                fsRead_filter_ne _ _ _ h13, fsRead_filter_ne _ _ _ h12,
                fsRead_filter_self]
            · rw [fsRead_filter_ne _ _ _ h25, fsRead_filter_ne _ _ _ h24,
                fsRead_filter_ne _ _ _ h23, fsRead_filter_self]
            · rw [fsRead_filter_ne _ _ _ h35, fsRead_filter_ne _ _ _ h34,
                fsRead_filter_self]
            · rw [fsRead_filter_ne _ _ _ h45, fsRead_filter_self]
            · rw [fsRead_filter_self]
            · rw [fsRead_filter_ne _ _ _ hn5, fsRead_filter_ne _ _ _ hn4,
                fsRead_filter_ne _ _ _ hn3, fsRead_filter_ne _ _ _ hn2,
                fsRead_filter_ne _ _ _ hn1, hfs3, fsRead_fsWrite_self]

/-- Claim C3 (amended): the region id is the final path segment of the step
file's parent directory, parsed by Python int(); a segment "3" (with a table
of more than three regions) makes the engine receive QMCHARGE[3]; a segment
that does not parse as an integer, or whose value is outside Python's index
range (at least len(QMCHARGE) or less than -len(QMCHARGE)), kills the step
before the engine subprocess runs; a parseable negative in-range segment
selects from the end of the table instead of failing. -/
theorem C3_region_lookup
    (xtb : EngineCall → Fs → Fs) (qmcharge : List ℤ) (fs : Fs) (directory : String) :
    (((splitOnChar '/' (dirname directory).data []).getLastD "" = "3" ∧
        3 < qmcharge.length) →
      ∀ c ∈ (run_qmmm xtb qmcharge fs directory).2, c.charge = qmcharge.getD 3 0) ∧
    ((pyParseInt ((splitOnChar '/' (dirname directory).data []).getLastD "") = none ∨
      (∃ i, pyParseInt ((splitOnChar '/' (dirname directory).data []).getLastD "") = some i ∧
        pyListGet qmcharge i = none)) →
      run_qmmm xtb qmcharge fs directory = (none, [])) := by
  constructor
  · rintro ⟨hseg, hlen⟩ c hc
    have hp : pyParseInt ((splitOnChar '/' (dirname directory).data []).getLastD "") =
        some 3 := by
      rw [hseg]
      with_unfolding_all rfl
    have hlg : pyListGet qmcharge 3 = some (qmcharge.getD 3 0) := by
      rw [pyListGet, if_pos (by omega : (0 : ℤ) ≤ 3)]
      have h3 : (3 : ℤ).toNat = 3 := rfl
      rw [h3, List.get?_eq_getElem?, List.getElem?_eq_getElem hlen,
        List.getD_eq_getElem?_getD, List.getElem?_eq_getElem hlen]
      rfl
    simp only [run_qmmm] at hc
    rw [hp] at hc
    dsimp only at hc
    cases hci : fs_convert_input fs directory (dirname directory ++ "/xtbxyz.xyz")
        (dirname directory ++ "/pcharge") with
    | none => rw [hci] at hc; simp at hc
    | some fs1 =>
      rw [hci] at hc
      dsimp only at hc
      rw [hlg] at hc
      dsimp only at hc
      cases hco : fs_convert_output
          (xtb ⟨dirname directory ++ "/xtbxyz.xyz", qmcharge.getD 3 0⟩ fs1)
          (dirname directory ++ "/charges") (dirname directory ++ "/gradient")
          (dirname directory ++ "/" ++ basename directory ++ ".result") with
      | none =>
        rw [hco] at hc
        dsimp only at hc
        simp only [List.mem_singleton] at hc
        subst hc
        rfl
      | some fs3 =>
        rw [hco] at hc
        dsimp only at hc
        cases hrm : ((((fsRemove fs3 (dirname directory ++ "/xtbxyz.xyz")).bind fun f =>
            fsRemove f (dirname directory ++ "/pcharge")).bind fun f =>
            (fsRemove f (dirname directory ++ "/charges"))).bind fun f =>
            ((fsRemove f (dirname directory ++ "/gradient")).bind fun f2 =>
              fsRemove f2 (dirname directory ++ "/xtbrestart"))) with
        | none =>
          rw [hrm] at hc
          dsimp only at hc
          simp only [List.mem_singleton] at hc
          subst hc
          rfl
        | some fs4 =>
          rw [hrm] at hc
          dsimp only at hc
          simp only [List.mem_singleton] at hc
          subst hc
          rfl
  · rintro (hn | ⟨i, hp, hout⟩)
    · simp only [run_qmmm]
      rw [hn]
    · simp only [run_qmmm]
      rw [hp]
      dsimp only
      cases hci : fs_convert_input fs directory (dirname directory ++ "/xtbxyz.xyz")
          (dirname directory ++ "/pcharge") with
      | none => rfl
      | some fs1 =>
        dsimp only
        rw [hout]

/-- Claim C3 as stated is false on negative segments: the final path segment
"-1" does not parse as a non-negative integer, yet the step does not die
before the engine call: Python list indexing QMCHARGE[-1] selects the last
entry (here 7) and the engine is invoked with it. -/
theorem C3_counterexample :
    pyParseInt "-1" = some (-1) ∧
    (run_qmmm (fun _ f => f) [7] [("r/-1/in", "1 0\n0.0 0.0 0.0 H\n")] "r/-1/in").2 =
      [⟨"r/-1/xtbxyz.xyz", 7⟩] :=
  ⟨by with_unfolding_all rfl, by with_unfolding_all rfl⟩

/-- Witness for C3_region_lookup: a parent directory ending in "3" hands
QMCHARGE[3] = 9 to the engine; a parent directory ending in "x" kills the
step with no engine call. -/
theorem C3_region_lookup_witness :
    (∀ c ∈ (run_qmmm (fun _ f => f) [0, 0, 0, 9]
        [("a/3/f", "1 0\n0.0 0.0 0.0 H\n")] "a/3/f").2,
      c.charge = ([0, 0, 0, 9] : List ℤ).getD 3 0) ∧
    run_qmmm (fun _ f => f) [0, 0, 0, 9] [("a/3/f", "1 0\n0.0 0.0 0.0 H\n")] "a/x/f" =
      (none, []) :=
  ⟨(C3_region_lookup (fun _ f => f) [0, 0, 0, 9] [("a/3/f", "1 0\n0.0 0.0 0.0 H\n")]
      "a/3/f").1 ⟨by with_unfolding_all rfl, by decide⟩,
   (C3_region_lookup (fun _ f => f) [0, 0, 0, 9] [("a/3/f", "1 0\n0.0 0.0 0.0 H\n")]
      "a/x/f").2 (Or.inl (by with_unfolding_all rfl))⟩

/-- Step file and engine oracle used by the C4 witness: the engine writes
the two result files and its restart marker, as the real engine does. -/
def exampleEngine : EngineCall → Fs → Fs := fun _ f =>
  fsWrite (fsWrite (fsWrite f "r/0/charges" "0.1\n0.2\n")
    "r/0/gradient"
    "$grad\ncycle = 1 SCF energy = -1.0 |dE/dxyz| = 0.1\n0 0 0 H\n0 0 1 H\n0.1 0.2 0.3\n0.4 0.5 0.6\n$end\n")
    "r/0/xtbrestart" "restart"

/-- Witness for C4_cleanup_invariant: a full concrete successful step. The
final filesystem holds exactly the original step file and the nonempty
result file; the five scratch files are gone. -/
theorem C4_cleanup_invariant_witness :
    run_qmmm exampleEngine [0]
        [("r/0/qmmm.input", "2 1\n0.0 0.0 0.0 H\n0.0 0.0 1.0 H\n0.0 0.0 2.0 0.5\n")]
        "r/0/qmmm.input" =
      (some [("r/0/qmmm.input.result",
              "-630.000000\n-119.052990 -238.105980 -357.158970 0.100000\n-476.211960 -595.264950 -714.317940 0.200000\n"),
             ("r/0/qmmm.input", "2 1\n0.0 0.0 0.0 H\n0.0 0.0 1.0 H\n0.0 0.0 2.0 0.5\n")],
       [⟨"r/0/xtbxyz.xyz", 0⟩]) ∧
    (fsRead [("r/0/qmmm.input.result",
              "-630.000000\n-119.052990 -238.105980 -357.158970 0.100000\n-476.211960 -595.264950 -714.317940 0.200000\n"),
             ("r/0/qmmm.input", "2 1\n0.0 0.0 0.0 H\n0.0 0.0 1.0 H\n0.0 0.0 2.0 0.5\n")]
        (dirname "r/0/qmmm.input" ++ "/xtbxyz.xyz") = none ∧
     fsRead [("r/0/qmmm.input.result",
              "-630.000000\n-119.052990 -238.105980 -357.158970 0.100000\n-476.211960 -595.264950 -714.317940 0.200000\n"),
             ("r/0/qmmm.input", "2 1\n0.0 0.0 0.0 H\n0.0 0.0 1.0 H\n0.0 0.0 2.0 0.5\n")]
        (dirname "r/0/qmmm.input" ++ "/pcharge") = none ∧
     fsRead [("r/0/qmmm.input.result",
              "-630.000000\n-119.052990 -238.105980 -357.158970 0.100000\n-476.211960 -595.264950 -714.317940 0.200000\n"),
             ("r/0/qmmm.input", "2 1\n0.0 0.0 0.0 H\n0.0 0.0 1.0 H\n0.0 0.0 2.0 0.5\n")]
        (dirname "r/0/qmmm.input" ++ "/charges") = none ∧
     fsRead [("r/0/qmmm.input.result",
              "-630.000000\n-119.052990 -238.105980 -357.158970 0.100000\n-476.211960 -595.264950 -714.317940 0.200000\n"),
             ("r/0/qmmm.input", "2 1\n0.0 0.0 0.0 H\n0.0 0.0 1.0 H\n0.0 0.0 2.0 0.5\n")]
        (dirname "r/0/qmmm.input" ++ "/gradient") = none ∧
     fsRead [("r/0/qmmm.input.result",
              "-630.000000\n-119.052990 -238.105980 -357.158970 0.100000\n-476.211960 -595.264950 -714.317940 0.200000\n"),
             ("r/0/qmmm.input", "2 1\n0.0 0.0 0.0 H\n0.0 0.0 1.0 H\n0.0 0.0 2.0 0.5\n")]
        (dirname "r/0/qmmm.input" ++ "/xtbrestart") = none ∧
     ∃ content,
       fsRead [("r/0/qmmm.input.result",
              "-630.000000\n-119.052990 -238.105980 -357.158970 0.100000\n-476.211960 -595.264950 -714.317940 0.200000\n"),
             ("r/0/qmmm.input", "2 1\n0.0 0.0 0.0 H\n0.0 0.0 1.0 H\n0.0 0.0 2.0 0.5\n")]
        (dirname "r/0/qmmm.input" ++ "/" ++ basename "r/0/qmmm.input" ++ ".result") =
          some content ∧ content ≠ "") :=
  ⟨by with_unfolding_all rfl,
   C4_cleanup_invariant exampleEngine [0]
     [("r/0/qmmm.input", "2 1\n0.0 0.0 0.0 H\n0.0 0.0 1.0 H\n0.0 0.0 2.0 0.5\n")]
     "r/0/qmmm.input"
     [("r/0/qmmm.input.result",
       "-630.000000\n-119.052990 -238.105980 -357.158970 0.100000\n-476.211960 -595.264950 -714.317940 0.200000\n"),
      ("r/0/qmmm.input", "2 1\n0.0 0.0 0.0 H\n0.0 0.0 1.0 H\n0.0 0.0 2.0 0.5\n")]
     [⟨"r/0/xtbxyz.xyz", 0⟩]
     (by with_unfolding_all rfl)⟩

end NamdXtb
